import Mathlib

/-!
# Shallow embedding of `migrate-lids.py`

The script is a one-time migration over two SQLite stores.  We model:

* identifiers (`lid`, `pn`, chat `jid`, message `sender`) as lists of
  characters (`Jid`), so that Python string operations (`endswith`,
  `replace`, `split("@")[0]`, f-string concatenation) become explicit
  recursive functions;
* Python dictionaries as insertion-ordered association lists with
  in-place overwrite (`dinsert`) and first-match lookup (`dget`),
  which reproduces `dict` key order and last-write-wins semantics;
* the `messages.db` store as a `DB` record: the `chats` table is the
  list of its `jid` column values (row order preserved), the
  `messages` table a list of `Msg` rows `(id, chat_jid, sender)`;
* each SQL statement of `migrate_messages_db` as a pure function on
  `DB` (`UPDATE ... WHERE col = v` is a `List.map`, `DELETE ... WHERE p`
  a `List.filter`, `SELECT DISTINCT` a first-occurrence dedup of the
  column in row order), and the cursor loops as left folds over the
  snapshot each `fetchall` takes;
* the single `conn.commit()` with a two-component connection state
  (`Conn`): the in-memory uncommitted view and the persisted store,
  with the run an explicit operation list (`migrateOps`) whose only
  `commit` is the final element.

`LIKE '%@lid'` is modelled as the case-sensitive suffix test, matching
the `endswith("@lid")` test used on the same values at line 48.
-/

namespace LidMigration

/-- An identifier string (JID / LID / phone number), as its character list. -/
abbrev Jid := List Char

/-- Embed a Lean string literal as a `Jid`. -/
def str (s : String) : Jid := s.toList

/-- The anonymized-domain suffix `"@lid"`. -/
def atLid : Jid := '@' :: 'l' :: 'i' :: 'd' :: []

/-- The stable-domain suffix `"@s.whatsapp.net"` appended at line 51. -/
def sWhatsAppNet : Jid :=
  '@' :: 's' :: '.' :: 'w' :: 'h' :: 'a' :: 't' :: 's' :: 'a' :: 'p' :: 'p' ::
    '.' :: 'n' :: 'e' :: 't' :: []

/-- A Python `dict` with string keys and values: an insertion-ordered
association list with unique keys. -/
abbrev Dict := List (Jid × Jid)

/-- Python `d[k]` / `k in d`: first-match lookup (keys are unique because
insertion overwrites in place). -/
def dget : Dict → Jid → Option Jid
  | [], _ => none
  | (k, v) :: rest, key => if key = k then some v else dget rest key

/-- Python `d[k] = v`: overwrite in place if the key exists (keeping its
position), else append at the end. -/
def dinsert : Dict → Jid → Jid → Dict
  | [], k, v => [(k, v)]
  | (k', v') :: rest, k, v =>
    if k = k' then (k', v) :: rest else (k', v') :: dinsert rest k v

/-- `load_lid_map` (lines 12-22): build `lid_map` from the rows of
`SELECT lid, pn FROM whatsmeow_lid_map`, in row order, last write wins. -/
def load_lid_map (rows : List (Jid × Jid)) : Dict :=
  rows.foldl (fun m r => dinsert m r.1 r.2) []

/-- Python `s.split("@")[0] if "@" in s else s` (lines 36-37 and 110):
the prefix of `s` before its first `'@'`, or all of `s` when it has none. -/
def beforeAt : Jid → Jid
  | [] => []
  | c :: rest => if c = '@' then [] else c :: beforeAt rest

/-- Line 34: `jid_map[lid_jid] = pn_jid` over `lid_map.items()`. -/
def build_jid_map (lm : Dict) : Dict :=
  lm.foldl (fun jm e => dinsert jm e.1 e.2) []

/-- Lines 36-38: `user_map[lid_user] = pn_user` over `lid_map.items()`. -/
def build_user_map (lm : Dict) : Dict :=
  lm.foldl (fun um e => dinsert um (beforeAt e.1) (beforeAt e.2)) []

/-- Python `s.endswith("@lid")`, and the `LIKE '%@lid'` row filters:
the last four characters of `s` are `"@lid"`. -/
def endsWithLid (s : Jid) : Bool :=
  decide (s.reverse.take 4 = 'd' :: 'i' :: 'l' :: '@' :: [])

/-- Python `s.replace("@lid", "")` (line 48): remove every left-to-right,
non-overlapping occurrence of `"@lid"`. -/
def stripLidAll : Jid → Jid
  | [] => []
  | c :: rest =>
    match rest with
    | l :: i :: d :: rest2 =>
      if c = '@' ∧ l = 'l' ∧ i = 'i' ∧ d = 'd' then stripLidAll rest2
      else c :: stripLidAll (l :: i :: d :: rest2)
    | rest => c :: stripLidAll rest

/-- Line 48: `chat_jid.replace("@lid", "") if chat_jid.endswith("@lid")
else chat_jid`. -/
def bareLid (s : Jid) : Jid := if endsWithLid s then stripLidAll s else s

/-- A row of the `messages` table: columns `id`, `chat_jid`, `sender`. -/
structure Msg where
  id : Jid
  chat_jid : Jid
  sender : Jid
deriving DecidableEq, Repr

/-- The `messages.db` store: the `jid` column of `chats` and the rows of
`messages`, in row order. -/
structure DB where
  chats : List Jid
  messages : List Msg
deriving DecidableEq, Repr

/-- Lines 56-60 / 76-80: `DELETE FROM messages WHERE chat_jid = old AND id IN
(SELECT m1.id FROM messages m1 INNER JOIN messages m2 ON m1.id = m2.id
WHERE m1.chat_jid = old AND m2.chat_jid = new)`.  The `IN`-set is computed
against the table as the statement sees it. -/
def mergeDupeDelete (msgs : List Msg) (old new : Jid) : List Msg :=
  let dupIds :=
    (msgs.filter (fun m1 =>
      decide (m1.chat_jid = old) &&
      msgs.any (fun m2 => decide (m2.id = m1.id) && decide (m2.chat_jid = new)))).map Msg.id
  msgs.filter (fun m => !(decide (m.chat_jid = old) && decide (m.id ∈ dupIds)))

/-- Lines 62 / 68 / 82 / 88: `UPDATE messages SET chat_jid = new WHERE
chat_jid = old`. -/
def moveMessages (msgs : List Msg) (old new : Jid) : List Msg :=
  msgs.map (fun m => if m.chat_jid = old then { m with chat_jid := new } else m)

/-- The merge branch (lines 56-64 / 76-84): delete duplicate messages, move the
remaining messages of `old` to `new`, delete the chat row `old`. -/
def mergeInto (db : DB) (old new : Jid) : DB :=
  { chats := db.chats.filter (fun j => !decide (j = old)),
    messages := moveMessages (mergeDupeDelete db.messages old new) old new }

/-- The rename branch (lines 67-68 / 87-88): `UPDATE chats SET jid = new WHERE
jid = old` and the cascading message update. -/
def renameChat (db : DB) (old new : Jid) : DB :=
  { chats := db.chats.map (fun j => if j = old then new else j),
    messages := moveMessages db.messages old new }

/-- Lines 53-54 / 74-75: `SELECT COUNT(*) FROM chats WHERE jid = new` > 0. -/
def chatExists (db : DB) (j : Jid) : Bool :=
  db.chats.any (fun j2 => decide (j2 = j))

/-- The shared body of both lookup branches (lines 52-69 and 73-89): merge when
the target chat already exists, else rename in place. -/
def applyChatRewrite (db : DB) (old new : Jid) : DB :=
  if chatExists db new then mergeInto db old new else renameChat db old new

/-- One iteration of the chat loop (lines 46-92): bare-user lookup first
(line 49), full-JID lookup as fallback (line 71), else no change. -/
def chatStep (um jm : Dict) (db : DB) (chat_jid : Jid) : DB :=
  match dget um (bareLid chat_jid) with
  | some phone_user => applyChatRewrite db chat_jid (phone_user ++ sWhatsAppNet)
  | none =>
    match dget jm chat_jid with
    | some new_jid => applyChatRewrite db chat_jid new_jid
    | none => db

/-- Line 41: `SELECT jid FROM chats WHERE jid LIKE '%@lid'`, fetched once
before the loop. -/
def lidChats (db : DB) : List Jid := db.chats.filter endsWithLid

/-- The chats-table pass (lines 40-92). -/
def chatPass (um jm : Dict) (db : DB) : DB :=
  (lidChats db).foldl (chatStep um jm) db

/-- Lines 106 / 113 / 126: `UPDATE messages SET sender = new WHERE
sender = old`. -/
def updSender (db : DB) (old new : Jid) : DB :=
  { db with
    messages := db.messages.map (fun m =>
      if m.sender = old then { m with sender := new } else m) }

/-- `SELECT DISTINCT` over a column: first occurrence of each value, in row
order.  `seen` accumulates the values already emitted. -/
def distinctAux : List Jid → List Jid → List Jid
  | [], _ => []
  | x :: xs, seen =>
    if x ∈ seen then distinctAux xs seen else x :: distinctAux xs (x :: seen)

/-- `SELECT DISTINCT` over a column of values. -/
def distinctVals (l : List Jid) : List Jid := distinctAux l []

/-- Line 98: `SELECT DISTINCT sender FROM messages WHERE sender LIKE '%@lid'`. -/
def lidSenders (db : DB) : List Jid :=
  distinctVals ((db.messages.map Msg.sender).filter endsWithLid)

/-- One iteration of the full-JID sender loop (lines 103-114): full-JID lookup
first, bare-user lookup on the suffix-stripped sender as fallback. -/
def senderStep1 (jm um : Dict) (db : DB) (s : Jid) : DB :=
  match dget jm s with
  | some ns => updSender db s ns
  | none =>
    match dget um (beforeAt s) with
    | some ns => updSender db s ns
    | none => db

/-- The full-JID sender pass (lines 96-114). -/
def senderPass1 (jm um : Dict) (db : DB) : DB :=
  (lidSenders db).foldl (senderStep1 jm um) db

/-- Line 120: `SELECT DISTINCT sender FROM messages` (the script keeps only
the first column, which is the whole row here). -/
def allSenders (db : DB) : List Jid := distinctVals (db.messages.map Msg.sender)

/-- One iteration of the bare sender loop (lines 123-127):
`if "@" not in sender and sender in user_map`. -/
def senderStep2 (um : Dict) (db : DB) (s : Jid) : DB :=
  if '@' ∈ s then db
  else
    match dget um s with
    | some ns => updSender db s ns
    | none => db

/-- The bare sender pass (lines 118-127). -/
def senderPass2 (um : Dict) (db : DB) : DB :=
  (allSenders db).foldl (senderStep2 um) db

/-- `migrate_messages_db` (lines 25-133), as the composite in-memory effect on
the target store: build the two derived maps, run the chat pass, then the two
sender passes.  The commit/connection structure is modelled separately by
`migrateOps` / `runOps`. -/
def migrate_messages_db (lm : Dict) (db : DB) : DB :=
  let jm := build_jid_map lm
  let um := build_user_map lm
  senderPass2 um (senderPass1 jm um (chatPass um jm db))

/-- The SQLite connection to the target store: the uncommitted in-memory view
(`mem`) and the persisted store contents (`disk`). -/
structure Conn where
  mem : DB
  disk : DB
deriving DecidableEq, Repr

/-- A database operation issued on the target-store connection: a data-changing
statement group (acting on the uncommitted view) or `conn.commit()`. -/
inductive Op where
  | write (f : DB → DB)
  | commit

/-- Effect of one operation on the connection. -/
def applyOp (c : Conn) : Op → Conn
  | .write f => { c with mem := f c.mem }
  | .commit => { c with disk := c.mem }

/-- Run a list of operations on the connection.  A database error raised by
operation `k` aborts the run, so an aborted run executes exactly a proper
prefix `ops.take k` of the list. -/
def runOps (c : Conn) (ops : List Op) : Conn := ops.foldl applyOp c

/-- The operation list `migrate_messages_db` issues on the target store, in
program order: the chat-loop iterations, the two sender passes, and the single
final `conn.commit()` (line 131). -/
def migrateOps (lm : Dict) (db : DB) : List Op :=
  let jm := build_jid_map lm
  let um := build_user_map lm
  ((lidChats db).map (fun cj => Op.write (fun d => chatStep um jm d cj)))
    ++ [Op.write (senderPass1 jm um), Op.write (senderPass2 um), Op.commit]

/-- The rewrite target the two chat lookups of lines 49/71 produce for a chat
identifier: the bare-user hit (suffixed with `"@s.whatsapp.net"`) first, the
full-JID entry as fallback, `none` when both miss. -/
def chatTarget (um jm : Dict) (c : Jid) : Option Jid :=
  match dget um (bareLid c) with
  | some u => some (u ++ sWhatsAppNet)
  | none => dget jm c

/-- The mapped target of a sender value per the code's lookup scheme: a
suffix-carrying sender uses the full-JID map first with the bare-user map as
fallback (lines 104-111); an `'@'`-free sender uses the bare-user map
(line 124); any other sender is never looked up. -/
def senderMapping (jm um : Dict) (s : Jid) : Option Jid :=
  if endsWithLid s then
    match dget jm s with
    | some v => some v
    | none => dget um (beforeAt s)
  else if '@' ∈ s then none
  else dget um s

/-- The trailing strip per the spec's words (claim C6): remove exactly the
final four characters (the domain-suffix portion) and nothing else.  This
follows the claim, not the code, and is compared against the code's
`bareLid`. -/
def specTrailingStrip (s : Jid) : Jid := s.take (s.length - 4)

/-! ## String lemmas -/

theorem reverse_atLid : atLid.reverse = 'd' :: 'i' :: 'l' :: '@' :: [] := rfl

theorem reverse_net :
    sWhatsAppNet.reverse =
      't' :: 'e' :: 'n' :: '.' :: 'p' :: 'p' :: 'a' :: 's' :: 't' :: 'a' :: 'h' ::
        'w' :: '.' :: 's' :: '@' :: [] := rfl

/-- Appending the anonymized suffix yields a suffix-carrying identifier. -/
theorem endsWithLid_append_lid (u : Jid) : endsWithLid (u ++ atLid) = true := by
  unfold endsWithLid
  rw [List.reverse_append, reverse_atLid]
  rfl

/-- A value ending in `"@s.whatsapp.net"` does not carry the anonymized
suffix. -/
theorem endsWithLid_append_net (u : Jid) : endsWithLid (u ++ sWhatsAppNet) = false := by
  unfold endsWithLid
  rw [List.reverse_append, reverse_net]
  rfl

/-- A suffix-carrying identifier decomposes as a user part plus `"@lid"`. -/
theorem exists_of_endsWithLid {s : Jid} (h : endsWithLid s = true) :
    ∃ u, s = u ++ atLid := by
  unfold endsWithLid at h
  rw [decide_eq_true_eq] at h
  refine ⟨(s.reverse.drop 4).reverse, ?_⟩
  have hs : s.reverse = ('d' :: 'i' :: 'l' :: '@' :: []) ++ s.reverse.drop 4 := by
    conv_lhs => rw [← List.take_append_drop 4 s.reverse]
    rw [h]
  calc s = s.reverse.reverse := (List.reverse_reverse s).symm
    _ = (('d' :: 'i' :: 'l' :: '@' :: []) ++ s.reverse.drop 4).reverse := by rw [← hs]
    _ = (s.reverse.drop 4).reverse ++ atLid := by
        rw [List.reverse_append]; rfl

/-- A suffix-carrying identifier contains `'@'`. -/
theorem mem_at_of_endsWithLid {s : Jid} (h : endsWithLid s = true) : '@' ∈ s := by
  rcases exists_of_endsWithLid h with ⟨u, rfl⟩
  simp [atLid]

/-- A value without `'@'` does not carry the anonymized suffix. -/
theorem not_endsWithLid_of_no_at {v : Jid} (h : '@' ∉ v) : endsWithLid v = false := by
  cases hv : endsWithLid v with
  | false => rfl
  | true => exact absurd (mem_at_of_endsWithLid hv) h

/-- The prefix before the first `'@'` contains no `'@'`. -/
theorem beforeAt_no_at (s : Jid) : '@' ∉ beforeAt s := by
  induction s with
  | nil => simp [beforeAt]
  | cons c rest ih =>
    by_cases hc : c = '@'
    · simp [beforeAt, hc]
    · simp only [beforeAt, if_neg hc, List.mem_cons]
      rintro (h | h)
      · exact hc h.symm
      · exact ih h

/-- Unfolding `stripLidAll` at a head character that is not `'@'`. -/
theorem stripLidAll_cons_ne {c : Char} (hc : c ≠ '@') (rest : Jid) :
    stripLidAll (c :: rest) = c :: stripLidAll rest := by
  match rest with
  | [] => rfl
  | [l] => rfl
  | [l, i] => rfl
  | l :: i :: d :: t =>
    show (if c = '@' ∧ l = 'l' ∧ i = 'i' ∧ d = 'd' then stripLidAll t
          else c :: stripLidAll (l :: i :: d :: t)) = _
    rw [if_neg (fun hcon => hc hcon.1)]

/-! ## Dictionary lemmas -/

/-- Every binding of `dinsert m k v` is the new binding or one of `m`. -/
theorem mem_dinsert {m : Dict} {k v : Jid} {e : Jid × Jid} (h : e ∈ dinsert m k v) :
    e = (k, v) ∨ e ∈ m := by
  induction m with
  | nil => simpa [dinsert] using h
  | cons hd tl ih =>
    rcases hd with ⟨k1, v1⟩
    simp only [dinsert] at h
    by_cases hk : k = k1
    · rw [if_pos hk] at h
      rcases List.mem_cons.mp h with h | h
      · left; rw [h, hk]
      · right; exact List.mem_cons_of_mem _ h
    · rw [if_neg hk] at h
      rcases List.mem_cons.mp h with h | h
      · right; exact h ▸ List.mem_cons_self _ _
      · rcases ih h with h2 | h2
        · left; exact h2
        · right; exact List.mem_cons_of_mem _ h2

/-- A successful lookup in a one-entry dictionary pins key and value. -/
theorem dget_singleton {a b k v : Jid} (h : dget [(a, b)] k = some v) : k = a ∧ v = b := by
  simp only [dget] at h
  by_cases hk : k = a
  · rw [if_pos hk] at h
    exact ⟨hk, (Option.some_inj.mp h).symm⟩
  · rw [if_neg hk] at h
    exact Option.noConfusion h

/-- A successful lookup in a two-entry dictionary pins key and value to one
of the entries. -/
theorem dget_pair {a b a2 b2 k v : Jid} (h : dget [(a, b), (a2, b2)] k = some v) :
    (k = a ∧ v = b) ∨ (k = a2 ∧ v = b2) := by
  simp only [dget] at h
  by_cases hk : k = a
  · rw [if_pos hk] at h
    exact Or.inl ⟨hk, (Option.some_inj.mp h).symm⟩
  · rw [if_neg hk] at h
    by_cases hk2 : k = a2
    · rw [if_pos hk2] at h
      exact Or.inr ⟨hk2, (Option.some_inj.mp h).symm⟩
    · rw [if_neg hk2] at h
      exact Option.noConfusion h

/-- A successful lookup returns one of the stored values. -/
theorem dget_mem_values {m : Dict} {k v : Jid} (h : dget m k = some v) :
    ∃ e ∈ m, e.2 = v := by
  induction m with
  | nil => simp [dget] at h
  | cons hd tl ih =>
    rcases hd with ⟨k1, v1⟩
    simp only [dget] at h
    by_cases hk : k = k1
    · rw [if_pos hk] at h
      exact ⟨(k1, v1), List.mem_cons_self _ _, Option.some_inj.mp h⟩
    · rw [if_neg hk] at h
      rcases ih h with ⟨e, he, hev⟩
      exact ⟨e, List.mem_cons_of_mem _ he, hev⟩

/-- All values of `build_user_map` are `beforeAt` images, hence `'@'`-free. -/
theorem build_user_map_values (lm : Dict) :
    ∀ e ∈ build_user_map lm, '@' ∉ e.2 := by
  unfold build_user_map
  have haux : ∀ (l : Dict) (acc : Dict), (∀ e ∈ acc, '@' ∉ e.2) →
      ∀ e ∈ l.foldl (fun um e => dinsert um (beforeAt e.1) (beforeAt e.2)) acc,
        '@' ∉ e.2 := by
    intro l
    induction l with
    | nil => intro acc hacc e he; exact hacc e he
    | cons hd tl ih =>
      intro acc hacc e he
      refine ih _ ?_ e he
      intro e2 he2
      rcases mem_dinsert he2 with h | h
      · rw [h]; exact beforeAt_no_at _
      · exact hacc e2 h
  exact haux lm [] (by simp)

/-- A bare-user map value contains no `'@'`. -/
theorem um_value_no_at {lm : Dict} {k v : Jid}
    (h : dget (build_user_map lm) k = some v) : '@' ∉ v := by
  rcases dget_mem_values h with ⟨e, he, hev⟩
  exact hev ▸ build_user_map_values lm e he

/-! ## Generic fold lemmas -/

/-- Left folds preserve an invariant indexed by the remaining work list. -/
theorem foldl_inv {α β : Type _} {f : α → β → α} {P : α → List β → Prop}
    (hstep : ∀ a b rest, P a (b :: rest) → P (f a b) rest) :
    ∀ (l : List β) (a : α), P a l → P (l.foldl f a) [] := by
  intro l
  induction l with
  | nil => intro a h; exact h
  | cons b rest ih => intro a h; exact ih (f a b) (hstep a b rest h)

/-- A left fold whose every step fixes `a` returns `a`. -/
theorem foldl_fixed {α β : Type _} {f : α → β → α} {a : α} :
    ∀ {l : List β}, (∀ b ∈ l, f a b = a) → l.foldl f a = a := by
  intro l
  induction l with
  | nil => intro _; rfl
  | cons b rest ih =>
    intro h
    have hb : f a b = a := h b (List.mem_cons_self _ _)
    rw [List.foldl_cons, hb]
    exact ih (fun x hx => h x (List.mem_cons_of_mem _ hx))

/-! ## Distinct-values lemmas -/

theorem mem_distinctAux {y : Jid} :
    ∀ {l seen : List Jid}, y ∈ distinctAux l seen ↔ y ∈ l ∧ y ∉ seen := by
  intro l
  induction l with
  | nil => intro seen; simp [distinctAux]
  | cons x xs ih =>
    intro seen
    by_cases hx : x ∈ seen
    · rw [distinctAux, if_pos hx, ih]
      constructor
      · rintro ⟨h1, h2⟩; exact ⟨List.mem_cons_of_mem _ h1, h2⟩
      · rintro ⟨h1, h2⟩
        rcases List.mem_cons.mp h1 with h | h
        · exact absurd (h ▸ hx) h2
        · exact ⟨h, h2⟩
    · rw [distinctAux, if_neg hx]
      constructor
      · intro h
        rcases List.mem_cons.mp h with h | h
        · exact ⟨h ▸ List.mem_cons_self _ _, h ▸ hx⟩
        · rcases ih.mp h with ⟨h1, h2⟩
          have : y ∉ seen := fun hy => h2 (List.mem_cons_of_mem _ hy)
          exact ⟨List.mem_cons_of_mem _ h1, this⟩
      · rintro ⟨h1, h2⟩
        rcases List.mem_cons.mp h1 with h | h
        · exact h ▸ List.mem_cons_self _ _
        · by_cases hyx : y = x
          · exact hyx ▸ List.mem_cons_self _ _
          · refine List.mem_cons_of_mem _ (ih.mpr ⟨h, ?_⟩)
            intro hy
            rcases List.mem_cons.mp hy with h3 | h3
            · exact hyx h3
            · exact h2 h3

theorem nodup_distinctAux : ∀ (l seen : List Jid), (distinctAux l seen).Nodup := by
  intro l
  induction l with
  | nil => intro seen; simp [distinctAux]
  | cons x xs ih =>
    intro seen
    by_cases hx : x ∈ seen
    · rw [distinctAux, if_pos hx]; exact ih seen
    · rw [distinctAux, if_neg hx]
      refine List.nodup_cons.mpr ⟨?_, ih (x :: seen)⟩
      intro hmem
      exact (mem_distinctAux.mp hmem).2 (List.mem_cons_self _ _)

theorem mem_distinctVals {y : Jid} {l : List Jid} : y ∈ distinctVals l ↔ y ∈ l := by
  rw [distinctVals, mem_distinctAux]
  simp

theorem nodup_distinctVals (l : List Jid) : (distinctVals l).Nodup :=
  nodup_distinctAux l []

/-- Membership in the full-JID sender snapshot. -/
theorem mem_lidSenders {s : Jid} {db : DB} :
    s ∈ lidSenders db ↔ (∃ m ∈ db.messages, m.sender = s) ∧ endsWithLid s = true := by
  rw [lidSenders, mem_distinctVals, List.mem_filter]
  constructor
  · rintro ⟨h1, h2⟩
    rcases List.mem_map.mp h1 with ⟨m, hm, rfl⟩
    exact ⟨⟨m, hm, rfl⟩, h2⟩
  · rintro ⟨⟨m, hm, rfl⟩, h2⟩
    exact ⟨List.mem_map.mpr ⟨m, hm, rfl⟩, h2⟩

/-- Membership in the all-senders snapshot. -/
theorem mem_allSenders {s : Jid} {db : DB} :
    s ∈ allSenders db ↔ ∃ m ∈ db.messages, m.sender = s := by
  rw [allSenders, mem_distinctVals]
  constructor
  · intro h1
    rcases List.mem_map.mp h1 with ⟨m, hm, rfl⟩
    exact ⟨m, hm, rfl⟩
  · rintro ⟨m, hm, rfl⟩
    exact List.mem_map.mpr ⟨m, hm, rfl⟩

/-! ## Basic operation lemmas -/

theorem updSender_chats (db : DB) (o n : Jid) : (updSender db o n).chats = db.chats := rfl

theorem updSender_messages (db : DB) (o n : Jid) :
    (updSender db o n).messages =
      db.messages.map (fun m => if m.sender = o then { m with sender := n } else m) := rfl

/-- Bulk update by equality, row by row: rows with the old sender get the new
value, all other rows are untouched. -/
theorem forall2_subst (l : List Msg) (s v : Jid) :
    List.Forall₂ (fun m m2 => (m.sender = s → m2 = { m with sender := v }) ∧
      (m.sender ≠ s → m2 = m)) l
      (l.map (fun m => if m.sender = s then { m with sender := v } else m)) := by
  rw [List.forall₂_map_right_iff]
  refine List.forall₂_same.mpr ?_
  intro m _
  by_cases h : m.sender = s
  · exact ⟨fun _ => by rw [if_pos h], fun hn => absurd h hn⟩
  · exact ⟨fun hs => absurd hs h, fun _ => by rw [if_neg h]⟩

/-- Every iteration of the full-JID sender loop either changes nothing or is a
bulk sender update with a value drawn from one of the two lookups. -/
theorem senderStep1_cases (jm um : Dict) (d : DB) (s : Jid) :
    senderStep1 jm um d s = d ∨
    ∃ v, senderStep1 jm um d s = updSender d s v ∧
      (dget jm s = some v ∨ (dget jm s = none ∧ dget um (beforeAt s) = some v)) := by
  unfold senderStep1
  cases h1 : dget jm s with
  | some v => exact Or.inr ⟨v, rfl, Or.inl rfl⟩
  | none =>
    cases h2 : dget um (beforeAt s) with
    | some v => exact Or.inr ⟨v, rfl, Or.inr ⟨rfl, rfl⟩⟩
    | none => exact Or.inl rfl

/-- Every iteration of the bare sender loop either changes nothing or is a
bulk sender update of an `'@'`-free value by its bare-user mapping. -/
theorem senderStep2_cases (um : Dict) (d : DB) (s : Jid) :
    senderStep2 um d s = d ∨
    ∃ v, senderStep2 um d s = updSender d s v ∧ '@' ∉ s ∧ dget um s = some v := by
  unfold senderStep2
  by_cases hat : '@' ∈ s
  · rw [if_pos hat]; exact Or.inl rfl
  · rw [if_neg hat]
    cases h2 : dget um s with
    | some v => exact Or.inr ⟨v, rfl, hat, rfl⟩
    | none => exact Or.inl rfl

/-- Rows after a bulk sender update come from previous rows: untouched when
their sender differed from the updated value, rewritten otherwise. -/
theorem mem_updSender {d : DB} {o n : Jid} {m2 : Msg} (h : m2 ∈ (updSender d o n).messages) :
    ∃ m ∈ d.messages, (m.sender ≠ o ∧ m2 = m) ∨ (m.sender = o ∧ m2 = { m with sender := n }) := by
  rcases List.mem_map.mp h with ⟨m, hm, hm2⟩
  by_cases hmo : m.sender = o
  · rw [if_pos hmo] at hm2; exact ⟨m, hm, Or.inr ⟨hmo, hm2.symm⟩⟩
  · rw [if_neg hmo] at hm2; exact ⟨m, hm, Or.inl ⟨hmo, hm2.symm⟩⟩

/-- The full-JID sender iteration, with the reason for the no-op case. -/
theorem senderStep1_cases_strong (jm um : Dict) (d : DB) (s : Jid) :
    (dget jm s = none ∧ dget um (beforeAt s) = none ∧ senderStep1 jm um d s = d) ∨
    ∃ v, senderStep1 jm um d s = updSender d s v ∧
      (dget jm s = some v ∨ (dget jm s = none ∧ dget um (beforeAt s) = some v)) := by
  unfold senderStep1
  cases h1 : dget jm s with
  | some v => exact Or.inr ⟨v, rfl, Or.inl rfl⟩
  | none =>
    cases h2 : dget um (beforeAt s) with
    | some v => exact Or.inr ⟨v, rfl, Or.inr ⟨rfl, rfl⟩⟩
    | none => exact Or.inl ⟨rfl, rfl, rfl⟩

/-- The bare sender iteration, with the reason for each no-op case. -/
theorem senderStep2_cases_strong (um : Dict) (d : DB) (s : Jid) :
    ('@' ∈ s ∧ senderStep2 um d s = d) ∨
    ('@' ∉ s ∧ dget um s = none ∧ senderStep2 um d s = d) ∨
    ∃ v, senderStep2 um d s = updSender d s v ∧ '@' ∉ s ∧ dget um s = some v := by
  unfold senderStep2
  by_cases hat : '@' ∈ s
  · rw [if_pos hat]; exact Or.inl ⟨hat, rfl⟩
  · rw [if_neg hat]
    cases h2 : dget um s with
    | some v => exact Or.inr (Or.inr ⟨v, rfl, hat, rfl⟩)
    | none => exact Or.inr (Or.inl ⟨hat, rfl, rfl⟩)

/-- Generic preservation of a row-wise relation to a base store under a fold
of sender-loop iterations. -/
theorem foldl_forall2_pres {f : DB → Jid → DB} {R : Msg → Msg → Prop} {d0 : DB} :
    ∀ (l : List Jid),
    (∀ d r, r ∈ l → f d r = d ∨ ∃ v, f d r = updSender d r v ∧
      ∀ a b, R a b → R a (if b.sender = r then { b with sender := v } else b)) →
    ∀ d, List.Forall₂ R d0.messages d.messages →
      List.Forall₂ R d0.messages (l.foldl f d).messages := by
  intro l
  induction l with
  | nil => intro _ d h; exact h
  | cons r rest ih =>
    intro hstep d h
    rw [List.foldl_cons]
    refine ih (fun d2 r2 hr2 => hstep d2 r2 (List.mem_cons_of_mem _ hr2)) _ ?_
    rcases hstep d r (List.mem_cons_self _ _) with heq | ⟨v, heq, hv⟩
    · rw [heq]; exact h
    · rw [heq, updSender_messages]
      rw [List.forall₂_map_right_iff]
      exact h.imp (fun a b hab => hv a b hab)

/-- Sender-loop folds never touch the chats table. -/
theorem foldl_sender_chats {f : DB → Jid → DB} :
    ∀ (l : List Jid),
    (∀ d r, r ∈ l → f d r = d ∨ ∃ v, f d r = updSender d r v) →
    ∀ d, (l.foldl f d).chats = d.chats := by
  intro l
  induction l with
  | nil => intro _ d; rfl
  | cons r rest ih =>
    intro hstep d
    rw [List.foldl_cons]
    rw [ih (fun d2 r2 hr2 => hstep d2 r2 (List.mem_cons_of_mem _ hr2)) _]
    rcases hstep d r (List.mem_cons_self _ _) with heq | ⟨v, heq⟩
    · rw [heq]
    · rw [heq, updSender_chats]

theorem senderPass1_chats (jm um : Dict) (d : DB) : (senderPass1 jm um d).chats = d.chats := by
  refine foldl_sender_chats _ ?_ d
  intro d2 r _
  rcases senderStep1_cases jm um d2 r with h | ⟨v, h, _⟩
  · exact Or.inl h
  · exact Or.inr ⟨v, h⟩

theorem senderPass2_chats (um : Dict) (d : DB) : (senderPass2 um d).chats = d.chats := by
  refine foldl_sender_chats _ ?_ d
  intro d2 r _
  rcases senderStep2_cases um d2 r with h | ⟨v, h, _⟩
  · exact Or.inl h
  · exact Or.inr ⟨v, h⟩

/-- Sender passes preserve the key and chat reference of every row, in place. -/
theorem sender_passes_keep_keys (jm um : Dict) (d : DB) :
    List.Forall₂ (fun m m2 => m2.id = m.id ∧ m2.chat_jid = m.chat_jid)
      d.messages (senderPass2 um (senderPass1 jm um d)).messages := by
  have hbase : List.Forall₂ (fun m m2 : Msg => m2.id = m.id ∧ m2.chat_jid = m.chat_jid)
      d.messages d.messages :=
    List.forall₂_same.mpr (fun m _ => ⟨rfl, rfl⟩)
  have h1 : List.Forall₂ (fun m m2 => m2.id = m.id ∧ m2.chat_jid = m.chat_jid)
      d.messages (senderPass1 jm um d).messages := by
    refine foldl_forall2_pres _ ?_ d hbase
    intro d2 r _
    rcases senderStep1_cases jm um d2 r with h | ⟨v, h, _⟩
    · exact Or.inl h
    · refine Or.inr ⟨v, h, ?_⟩
      intro a b hab
      by_cases hb : b.sender = r
      · rw [if_pos hb]; exact hab
      · rw [if_neg hb]; exact hab
  refine foldl_forall2_pres _ ?_ _ h1
  intro d2 r _
  rcases senderStep2_cases um d2 r with h | ⟨v, h, _⟩
  · exact Or.inl h
  · refine Or.inr ⟨v, h, ?_⟩
    intro a b hab
    by_cases hb : b.sender = r
    · rw [if_pos hb]; exact hab
    · rw [if_neg hb]; exact hab

/-! Sanity checks of the embedding on the two scenarios of spec §8. -/

/-- Spec §8 scenario 1: rename, no dupes. -/
example :
    migrate_messages_db [(str "111@lid", str "22211111111@s.whatsapp.net")]
      { chats := [str "111@lid"],
        messages := [⟨str "m1", str "111@lid", str "x"⟩,
                     ⟨str "m2", str "111@lid", str "y"⟩] } =
    { chats := [str "22211111111@s.whatsapp.net"],
      messages := [⟨str "m1", str "22211111111@s.whatsapp.net", str "x"⟩,
                   ⟨str "m2", str "22211111111@s.whatsapp.net", str "y"⟩] } := by
  decide

/-- Spec §8 scenario 2: merge, one dupe removed, one moved, old chat deleted. -/
example :
    migrate_messages_db [(str "111@lid", str "22211111111@s.whatsapp.net")]
      { chats := [str "22211111111@s.whatsapp.net", str "111@lid"],
        messages := [⟨str "m1", str "22211111111@s.whatsapp.net", str "x"⟩,
                     ⟨str "m1", str "111@lid", str "x"⟩,
                     ⟨str "m2", str "111@lid", str "y"⟩] } =
    { chats := [str "22211111111@s.whatsapp.net"],
      messages := [⟨str "m1", str "22211111111@s.whatsapp.net", str "x"⟩,
                   ⟨str "m2", str "22211111111@s.whatsapp.net", str "y"⟩] } := by
  decide

/-! ## Chat-pass machinery -/

/-- A fold preserves a plain state predicate closed under every step. -/
theorem foldl_pred {α β : Type _} {f : α → β → α} {Q : α → Prop} :
    ∀ (l : List β), (∀ a b, b ∈ l → Q a → Q (f a b)) → ∀ a, Q a → Q (l.foldl f a) := by
  intro l
  induction l with
  | nil => intro _ a h; exact h
  | cons b rest ih =>
    intro hstep a h
    exact ih (fun a2 b2 hb2 => hstep a2 b2 (List.mem_cons_of_mem _ hb2)) _
      (hstep a b (List.mem_cons_self _ _) h)

/-- A related element on the left has a related partner on the right. -/
theorem forall2_mem_left {α β : Type _} {R : α → β → Prop} {l1 : List α} {l2 : List β}
    (h : List.Forall₂ R l1 l2) {a : α} (ha : a ∈ l1) : ∃ b ∈ l2, R a b := by
  induction h with
  | nil => simp at ha
  | cons hr _ ih =>
    rcases List.mem_cons.mp ha with h2 | h2
    · exact ⟨_, List.mem_cons_self _ _, h2 ▸ hr⟩
    · rcases ih h2 with ⟨b, hb, hbr⟩
      exact ⟨b, List.mem_cons_of_mem _ hb, hbr⟩

/-- A related element on the right has a related partner on the left. -/
theorem forall2_mem_right {α β : Type _} {R : α → β → Prop} {l1 : List α} {l2 : List β}
    (h : List.Forall₂ R l1 l2) {b : β} (hb : b ∈ l2) : ∃ a ∈ l1, R a b := by
  induction h with
  | nil => simp at hb
  | cons hr _ ih =>
    rcases List.mem_cons.mp hb with h2 | h2
    · exact ⟨_, List.mem_cons_self _ _, h2 ▸ hr⟩
    · rcases ih h2 with ⟨a, ha, har⟩
      exact ⟨a, List.mem_cons_of_mem _ ha, har⟩

/-- A chat-loop iteration whose both lookups miss changes nothing. -/
theorem chatStep_none {um jm : Dict} {c : Jid} (h : chatTarget um jm c = none) (d : DB) :
    chatStep um jm d c = d := by
  unfold chatTarget at h
  cases h1 : dget um (bareLid c) with
  | some u => rw [h1] at h; simp at h
  | none =>
    rw [h1] at h
    have h2 : dget jm c = none := h
    simp [chatStep, h1, h2]

/-- A chat-loop iteration with a rewrite target applies the merge-or-rename
rewrite to that target. -/
theorem chatStep_some {um jm : Dict} {c nj : Jid} (h : chatTarget um jm c = some nj) (d : DB) :
    chatStep um jm d c = applyChatRewrite d c nj := by
  unfold chatTarget at h
  cases h1 : dget um (bareLid c) with
  | some u =>
    rw [h1] at h
    have h2 : u ++ sWhatsAppNet = nj := Option.some_inj.mp h
    simp [chatStep, h1, h2]
  | none =>
    rw [h1] at h
    have h2 : dget jm c = some nj := h
    simp [chatStep, h1, h2]

/-- Under hypothesis H1 (no full-map value carries the suffix), no chat
rewrite target carries the anonymized suffix. -/
theorem chatTarget_not_lid {um jm : Dict} {c nj : Jid}
    (H1 : ∀ k v, dget jm k = some v → endsWithLid v = false)
    (h : chatTarget um jm c = some nj) : endsWithLid nj = false := by
  unfold chatTarget at h
  cases h1 : dget um (bareLid c) with
  | some u =>
    rw [h1] at h
    have h2 : u ++ sWhatsAppNet = nj := Option.some_inj.mp h
    rw [← h2]
    exact endsWithLid_append_net u
  | none =>
    rw [h1] at h
    have h2 : dget jm c = some nj := h
    exact H1 _ _ h2

theorem chatExists_iff {d : DB} {j : Jid} : chatExists d j = true ↔ j ∈ d.chats := by
  simp [chatExists]

/-- Both chat lookups missing is exactly the no-target case. -/
theorem chatTarget_none_elim {um jm : Dict} {x : Jid} (h : chatTarget um jm x = none) :
    dget um (bareLid x) = none ∧ dget jm x = none := by
  unfold chatTarget at h
  cases h1 : dget um (bareLid x) with
  | some u => rw [h1] at h; exact Option.noConfusion h
  | none =>
    rw [h1] at h
    exact ⟨rfl, h⟩

theorem chatTarget_none_intro {um jm : Dict} {x : Jid}
    (h1 : dget um (bareLid x) = none) (h2 : dget jm x = none) :
    chatTarget um jm x = none := by
  unfold chatTarget
  rw [h1]
  exact h2

/-- Renaming `old` to `new` does not change the multiplicity of a third
identifier. -/
theorem count_map_swap_ne {x old new : Jid} (hxo : x ≠ old) (hxn : x ≠ new) :
    ∀ l : List Jid, (l.map (fun j => if j = old then new else j)).count x = l.count x := by
  intro l
  induction l with
  | nil => rfl
  | cons j t ih =>
    rw [List.map_cons]
    by_cases hj : j = old
    · rw [if_pos hj, List.count_cons_of_ne hxn, ih, List.count_cons_of_ne (hj ▸ hxo)]
    · by_cases hxj : x = j
      · rw [if_neg hj, ← hxj, List.count_cons_self, List.count_cons_self, ih]
      · rw [if_neg hj, List.count_cons_of_ne hxj, ih, List.count_cons_of_ne hxj]

/-- Renaming cannot introduce an identifier other than the new value. -/
theorem count_map_swap_zero {x old new : Jid} (hxn : x ≠ new) {l : List Jid}
    (h : l.count x = 0) : (l.map (fun j => if j = old then new else j)).count x = 0 := by
  rw [List.count_eq_zero] at h ⊢
  intro hmem
  rcases List.mem_map.mp hmem with ⟨j, hj, hjx⟩
  by_cases hjo : j = old
  · rw [if_pos hjo] at hjx; exact hxn hjx.symm
  · rw [if_neg hjo] at hjx; exact h (hjx ▸ hj)

/-- In a duplicate-free list every member has multiplicity one. -/
theorem count_eq_one_of_nodup_mem {l : List Jid} {a : Jid} (hnd : l.Nodup) (h : a ∈ l) :
    l.count a = 1 := by
  induction l with
  | nil => simp at h
  | cons b t ih =>
    rcases List.mem_cons.mp h with h2 | h2
    · subst h2
      rw [List.count_cons_self]
      have hnotin : a ∉ t := (List.nodup_cons.mp hnd).1
      rw [List.count_eq_zero.mpr hnotin]
    · have hba : a ≠ b := by
        intro hc
        exact (List.nodup_cons.mp hnd).1 (hc ▸ h2)
      rw [List.count_cons_of_ne hba, ih (List.nodup_cons.mp hnd).2 h2]

theorem count_mergeInto_ne {d : DB} {old new x : Jid} (hx : x ≠ old) :
    (mergeInto d old new).chats.count x = d.chats.count x := by
  show (d.chats.filter _).count x = _
  exact List.count_filter (by simp [hx])

theorem count_mergeInto_self {d : DB} {old new : Jid} :
    (mergeInto d old new).chats.count old = 0 := by
  rw [List.count_eq_zero]
  intro h
  rw [show (mergeInto d old new).chats = d.chats.filter (fun j => !decide (j = old)) from rfl,
    List.mem_filter] at h
  simp at h

/-- A third identifier present in the chats table keeps its multiplicity
through a merge-or-rename rewrite. -/
theorem count_applyChatRewrite_pres {d : DB} {old new x : Jid} (hxo : x ≠ old)
    (hpos : 0 < d.chats.count x) :
    (applyChatRewrite d old new).chats.count x = d.chats.count x := by
  unfold applyChatRewrite
  by_cases hex : chatExists d new = true
  · rw [if_pos hex]; exact count_mergeInto_ne hxo
  · rw [if_neg hex]
    have hxn : x ≠ new := by
      intro hh
      apply hex
      rw [chatExists_iff, ← hh]
      exact List.count_pos_iff.mp hpos
    exact count_map_swap_ne hxo hxn _

/-- An absent identifier distinct from the rewrite target stays absent. -/
theorem count_applyChatRewrite_zero {d : DB} {old new x : Jid} (hxn : x ≠ new)
    (h0 : d.chats.count x = 0) :
    (applyChatRewrite d old new).chats.count x = 0 := by
  unfold applyChatRewrite
  by_cases hex : chatExists d new = true
  · rw [if_pos hex]
    have hle : (mergeInto d old new).chats.count x ≤ d.chats.count x := by
      show (d.chats.filter _).count x ≤ _
      exact (List.filter_sublist _).count_le x
    omega
  · rw [if_neg hex]
    exact count_map_swap_zero hxn h0

/-- Chats surviving a merge-or-rename rewrite are the target or previous
entries other than the rewritten one. -/
theorem mem_applyChatRewrite_chats {d : DB} {old new j : Jid}
    (h : j ∈ (applyChatRewrite d old new).chats) : j = new ∨ (j ∈ d.chats ∧ j ≠ old) := by
  unfold applyChatRewrite at h
  by_cases hex : chatExists d new = true
  · rw [if_pos hex] at h
    rw [show (mergeInto d old new).chats = d.chats.filter (fun x => !decide (x = old)) from rfl,
      List.mem_filter] at h
    refine Or.inr ⟨h.1, ?_⟩
    have h2 := h.2
    simp at h2
    exact h2
  · rw [if_neg hex] at h
    rcases List.mem_map.mp h with ⟨y, hy, hyj⟩
    by_cases hyo : y = old
    · rw [if_pos hyo] at hyj; exact Or.inl hyj.symm
    · rw [if_neg hyo] at hyj; exact Or.inr ⟨hyj ▸ hy, hyj ▸ hyo⟩

/-- Rows after a message move come from previous rows: untouched when their
chat reference differed from the moved one, reassigned to the target
otherwise. -/
theorem mem_moveMessages {msgs : List Msg} {old new : Jid} {m2 : Msg}
    (h : m2 ∈ moveMessages msgs old new) :
    ∃ m ∈ msgs, (m.chat_jid ≠ old ∧ m2 = m) ∨
      (m.chat_jid = old ∧ m2 = { m with chat_jid := new }) := by
  rcases List.mem_map.mp h with ⟨m, hm, hm2⟩
  by_cases hmo : m.chat_jid = old
  · rw [if_pos hmo] at hm2; exact ⟨m, hm, Or.inr ⟨hmo, hm2.symm⟩⟩
  · rw [if_neg hmo] at hm2; exact ⟨m, hm, Or.inl ⟨hmo, hm2.symm⟩⟩

theorem mem_mergeDupeDelete {msgs : List Msg} {old new : Jid} {m : Msg}
    (h : m ∈ mergeDupeDelete msgs old new) : m ∈ msgs :=
  List.mem_of_mem_filter h

/-- Rows after a merge-or-rename rewrite come from previous rows, with at most
the chat reference rewritten to the target. -/
theorem mem_applyChatRewrite_messages {d : DB} {old new : Jid} {m2 : Msg}
    (h : m2 ∈ (applyChatRewrite d old new).messages) :
    ∃ m ∈ d.messages, (m.chat_jid ≠ old ∧ m2 = m) ∨
      (m.chat_jid = old ∧ m2 = { m with chat_jid := new }) := by
  unfold applyChatRewrite at h
  by_cases hex : chatExists d new = true
  · rw [if_pos hex] at h
    rcases mem_moveMessages h with ⟨m, hm, hc⟩
    exact ⟨m, mem_mergeDupeDelete hm, hc⟩
  · rw [if_neg hex] at h
    exact mem_moveMessages h

/-- A second filter is unaffected by a first filter it implies. -/
theorem filter_filter_of_imp {α : Type _} {p q : α → Bool}
    (h : ∀ a, p a = true → q a = true) :
    ∀ l : List α, (l.filter q).filter p = l.filter p := by
  intro l
  induction l with
  | nil => rfl
  | cons a t ih =>
    by_cases hq : q a = true
    · rw [List.filter_cons_of_pos hq]
      by_cases hp : p a = true
      · rw [List.filter_cons_of_pos hp, List.filter_cons_of_pos hp, ih]
      · rw [List.filter_cons_of_neg hp, List.filter_cons_of_neg hp, ih]
    · have hp : ¬ p a = true := fun hp2 => hq (h a hp2)
      rw [List.filter_cons_of_neg hq, List.filter_cons_of_neg hp, ih]

/-- Moving messages between two other chats leaves a third chat's rows
untouched. -/
theorem filter_chat_moveMessages {old new x : Jid} (hxo : x ≠ old) (hxn : x ≠ new) :
    ∀ msgs : List Msg,
      (moveMessages msgs old new).filter (fun m => decide (m.chat_jid = x)) =
        msgs.filter (fun m => decide (m.chat_jid = x)) := by
  intro msgs
  induction msgs with
  | nil => rfl
  | cons m t ih =>
    rw [show moveMessages (m :: t) old new =
      (if m.chat_jid = old then { m with chat_jid := new } else m) :: moveMessages t old new
      from rfl]
    by_cases hmo : m.chat_jid = old
    · have hx1 : ({ m with chat_jid := new } : Msg).chat_jid ≠ x := fun hh => hxn hh.symm
      have hx2 : m.chat_jid ≠ x := fun hh => hxo (hh ▸ hmo)
      rw [if_pos hmo, List.filter_cons, List.filter_cons]
      simp only [hx1, hx2, decide_eq_true_eq, if_neg]
      exact ih
    · rw [if_neg hmo, List.filter_cons, List.filter_cons]
      by_cases hmx : m.chat_jid = x
      · simp only [hmx, decide_eq_true_eq, if_pos]
        rw [ih]
      · simp only [hmx, decide_eq_true_eq, if_neg]
        exact ih

/-- Duplicate deletion touches only rows of the merged chat. -/
theorem filter_chat_mergeDupeDelete {old x : Jid} (hxo : x ≠ old)
    (msgs : List Msg) (new : Jid) :
    (mergeDupeDelete msgs old new).filter (fun m => decide (m.chat_jid = x)) =
      msgs.filter (fun m => decide (m.chat_jid = x)) := by
  refine filter_filter_of_imp ?_ msgs
  intro m hm
  rw [decide_eq_true_eq] at hm
  have : decide (m.chat_jid = old) = false := by
    simp
    rw [hm]
    exact hxo
  simp [this]

/-- A third chat's rows pass through a merge-or-rename rewrite unchanged and
in order. -/
theorem filter_chat_applyChatRewrite {d : DB} {old new x : Jid}
    (hxo : x ≠ old) (hxn : x ≠ new) :
    (applyChatRewrite d old new).messages.filter (fun m => decide (m.chat_jid = x)) =
      d.messages.filter (fun m => decide (m.chat_jid = x)) := by
  unfold applyChatRewrite
  by_cases hex : chatExists d new = true
  · rw [if_pos hex]
    show ((moveMessages (mergeDupeDelete d.messages old new) old new).filter _) = _
    rw [filter_chat_moveMessages hxo hxn, filter_chat_mergeDupeDelete hxo]
  · rw [if_neg hex]
    exact filter_chat_moveMessages hxo hxn _

/-- After a merge no row references the merged chat. -/
theorem mergeInto_no_old_rows {d : DB} {old new : Jid} (hno : new ≠ old) :
    ∀ m2 ∈ (mergeInto d old new).messages, m2.chat_jid ≠ old := by
  intro m2 h
  rcases mem_moveMessages (h : m2 ∈ moveMessages (mergeDupeDelete d.messages old new) old new)
    with ⟨m, _, ⟨hne, rfl⟩ | ⟨_, rfl⟩⟩
  · exact hne
  · exact hno

/-- A row filed under any chat other than the merged one survives the merge
as is: duplicate deletion and the move both test `chat_jid = old` only. -/
theorem row_survives_mergeInto {d : DB} {old new : Jid} {m : Msg}
    (hm : m ∈ d.messages) (hne : m.chat_jid ≠ old) :
    m ∈ (mergeInto d old new).messages := by
  have h1 : m ∈ mergeDupeDelete d.messages old new := by
    show m ∈ d.messages.filter _
    rw [List.mem_filter]
    refine ⟨hm, ?_⟩
    have hdec : decide (m.chat_jid = old) = false := by simp [hne]
    simp [hdec]
  have h2 : (if m.chat_jid = old then { m with chat_jid := new } else m) = m := if_neg hne
  exact List.mem_map.mpr ⟨m, h1, h2⟩

/-- A row filed under any chat other than the rewritten one passes through a
merge-or-rename rewrite as is. -/
theorem row_survives_applyChatRewrite {d : DB} {old new : Jid} {m : Msg}
    (hm : m ∈ d.messages) (hne : m.chat_jid ≠ old) :
    m ∈ (applyChatRewrite d old new).messages := by
  unfold applyChatRewrite
  by_cases hex : chatExists d new = true
  · rw [if_pos hex]
    exact row_survives_mergeInto hm hne
  · rw [if_neg hex]
    have h2 : (if m.chat_jid = old then { m with chat_jid := new } else m) = m := if_neg hne
    exact List.mem_map.mpr ⟨m, hm, h2⟩

/-- A row already filed under the merge target survives the merge as is. -/
theorem target_row_survives {d : DB} {old new : Jid} (hno : new ≠ old) {mt : Msg}
    (hmt : mt ∈ d.messages) (hc : mt.chat_jid = new) :
    mt ∈ (mergeInto d old new).messages := by
  have h1 : mt ∈ mergeDupeDelete d.messages old new := by
    show mt ∈ d.messages.filter _
    rw [List.mem_filter]
    refine ⟨hmt, ?_⟩
    have hdec : decide (mt.chat_jid = old) = false := by
      simp
      rw [hc]
      exact hno
    simp [hdec]
  have h2 : (if mt.chat_jid = old then { mt with chat_jid := new } else mt) = mt := by
    rw [if_neg]
    rw [hc]
    exact hno
  exact List.mem_map.mpr ⟨mt, h1, h2⟩

/-- Every row of the merged chat ends up represented under the target: its
collision partner when a row with the same key already existed there, its own
reassigned copy otherwise. -/
theorem mergeInto_target_rows {d : DB} {old new : Jid} (hno : new ≠ old) :
    ∀ m0 ∈ d.messages, m0.chat_jid = old →
      ∃ m2 ∈ (mergeInto d old new).messages, m2.id = m0.id ∧ m2.chat_jid = new := by
  intro m0 hm0 hchat
  by_cases hcol : ∃ mt ∈ d.messages, mt.chat_jid = new ∧ mt.id = m0.id
  · rcases hcol with ⟨mt, hmt, hmtc, hmti⟩
    exact ⟨mt, target_row_survives hno hmt hmtc, hmti, hmtc⟩
  · push_neg at hcol
    have hsur : m0 ∈ mergeDupeDelete d.messages old new := by
      show m0 ∈ d.messages.filter _
      rw [List.mem_filter]
      refine ⟨hm0, ?_⟩
      have hnid : decide (m0.id ∈ (d.messages.filter (fun m1 =>
          decide (m1.chat_jid = old) && d.messages.any (fun m2 =>
            decide (m2.id = m1.id) && decide (m2.chat_jid = new)))).map Msg.id) = false := by
        rw [decide_eq_false_iff_not]
        intro hin
        rcases List.mem_map.mp hin with ⟨m1, hm1f, hm1id⟩
        rw [List.mem_filter] at hm1f
        rcases hm1f with ⟨_, hm1p⟩
        rw [Bool.and_eq_true] at hm1p
        rcases hm1p with ⟨_, hany⟩
        rw [List.any_eq_true] at hany
        rcases hany with ⟨m2, hm2mem, hm2p⟩
        rw [Bool.and_eq_true, decide_eq_true_eq, decide_eq_true_eq] at hm2p
        exact hcol m2 hm2mem hm2p.2 (hm2p.1.trans hm1id)
      simp [hnid]
    refine ⟨{ m0 with chat_jid := new }, ?_, rfl, rfl⟩
    exact List.mem_map.mpr ⟨m0, hsur, by rw [if_pos hchat]⟩

/-! ## Sender-pass phase machinery -/

/-- A membership-aware weakening of a row-wise relation. -/
theorem forall2_imp_mem_right {α β : Type _} {R R2 : α → β → Prop} :
    ∀ {l1 : List α} {l2 : List β}, List.Forall₂ R l1 l2 →
      (∀ a b, b ∈ l2 → R a b → R2 a b) → List.Forall₂ R2 l1 l2 := by
  intro l1 l2 h
  induction h with
  | nil => intro _; exact List.Forall₂.nil
  | cons hr hrest ih =>
    intro himp
    refine List.Forall₂.cons (himp _ _ (List.mem_cons_self _ _) hr) ?_
    exact ih (fun a b hb hab => himp a b (List.mem_cons_of_mem _ hb) hab)

/-- Before the tracked sender value is processed: loop iterations that neither
read nor write that value preserve, row by row, whether a row holds it. -/
theorem phase_iff {f : DB → Jid → DB} {S : Jid} {d0 : DB} (l : List Jid)
    (hstep : ∀ d r, r ∈ l → f d r = d ∨ ∃ v, f d r = updSender d r v ∧ r ≠ S ∧ v ≠ S) :
    ∀ d, List.Forall₂ (fun m m2 => m.sender = S ↔ m2.sender = S) d0.messages d.messages →
      List.Forall₂ (fun m m2 => m.sender = S ↔ m2.sender = S) d0.messages
        (l.foldl f d).messages := by
  intro d hd
  refine foldl_forall2_pres _ ?_ d hd
  intro d2 r hr
  rcases hstep d2 r hr with hid | ⟨v, hupd, hrS, hvS⟩
  · exact Or.inl hid
  · refine Or.inr ⟨v, hupd, ?_⟩
    intro a b hab
    by_cases hb : b.sender = r
    · rw [if_pos hb]
      constructor
      · intro haS
        exact absurd ((hb ▸ hab.mp haS : _)) (fun hh => hrS ((hh : r = S)))
      · intro hvS2
        exact absurd hvS2 hvS
    · rw [if_neg hb]; exact hab

/-- After the tracked sender value was rewritten to its target: loop
iterations that write values other than the old sender and never rewrite the
target preserve the rewritten state. -/
theorem phase_post {f : DB → Jid → DB} {S S2 : Jid} {d0 : DB} (l : List Jid)
    (hstep : ∀ d r, r ∈ l → f d r = d ∨ ∃ v, f d r = updSender d r v ∧ v ≠ S ∧ r ≠ S2) :
    ∀ d, List.Forall₂ (fun m m2 => (m.sender = S → m2.sender = S2) ∧ m2.sender ≠ S)
        d0.messages d.messages →
      List.Forall₂ (fun m m2 => (m.sender = S → m2.sender = S2) ∧ m2.sender ≠ S)
        d0.messages (l.foldl f d).messages := by
  intro d hd
  refine foldl_forall2_pres _ ?_ d hd
  intro d2 r hr
  rcases hstep d2 r hr with hid | ⟨v, hupd, hvS, hrS2⟩
  · exact Or.inl hid
  · refine Or.inr ⟨v, hupd, ?_⟩
    intro a b hab
    by_cases hb : b.sender = r
    · rw [if_pos hb]
      refine ⟨?_, hvS⟩
      intro haS
      exact absurd ((hb ▸ hab.1 haS : _)) (fun hh => hrS2 ((hh : r = S2)))
    · rw [if_neg hb]; exact hab

/-- The bulk update of the tracked sender value to its target turns the
row-wise tracking relation into the rewritten state. -/
theorem subst_post {d0 dA : DB} {S S2 : Jid} (hSS : S2 ≠ S)
    (h : List.Forall₂ (fun m m2 => m.sender = S ↔ m2.sender = S) d0.messages dA.messages) :
    List.Forall₂ (fun m m2 => (m.sender = S → m2.sender = S2) ∧ m2.sender ≠ S)
      d0.messages (updSender dA S S2).messages := by
  rw [updSender_messages, List.forall₂_map_right_iff]
  refine h.imp ?_
  intro a b hab
  by_cases hb : b.sender = S
  · rw [if_pos hb]
    exact ⟨fun _ => rfl, hSS⟩
  · rw [if_neg hb]
    exact ⟨fun haS => absurd (hab.mp haS) hb, hb⟩

/-! ## Connection / commit lemmas -/

/-- Running only `write` operations leaves the persisted store untouched. -/
theorem runOps_writes_disk :
    ∀ (l : List Op) (c : Conn), (∀ op ∈ l, ∃ f, op = Op.write f) →
      (runOps c l).disk = c.disk := by
  intro l
  induction l with
  | nil => intro c _; rfl
  | cons op rest ih =>
    intro c h
    rcases h op (List.mem_cons_self _ _) with ⟨f, rfl⟩
    rw [runOps, List.foldl_cons]
    exact ih _ (fun op2 h2 => h op2 (List.mem_cons_of_mem _ h2))

/-- Running the mapped chat-loop writes folds the step over the uncommitted
view and leaves the persisted store untouched. -/
theorem runOps_write_map (um jm : Dict) :
    ∀ (l : List Jid) (c : Conn),
      runOps c (l.map (fun cj => Op.write (fun d => chatStep um jm d cj))) =
        ⟨l.foldl (chatStep um jm) c.mem, c.disk⟩ := by
  intro l
  induction l with
  | nil => intro c; rfl
  | cons x rest ih =>
    intro c
    rw [List.map_cons, runOps, List.foldl_cons, ← runOps, ih]
    rfl

/-- Strip of a clean `user ++ "@lid"` identifier removes exactly the suffix. -/
theorem stripLidAll_user_append {u : Jid} (h : '@' ∉ u) :
    stripLidAll (u ++ atLid) = u := by
  induction u with
  | nil => rfl
  | cons c u ih =>
    have hc : c ≠ '@' := by
      intro hcc
      exact h (by rw [hcc]; exact List.mem_cons_self _ _)
    have hu : '@' ∉ u := fun hm => h (List.mem_cons_of_mem _ hm)
    rw [List.cons_append, stripLidAll_cons_ne hc, ih hu]

/-! ## Claim theorems -/

/-- Claim C2: chat-pass lookup precedence.  For a chat identifier carrying the
anonymized suffix, the bare-user map is consulted first, unconditionally: on a
bare-user hit the outcome is the merge-or-rename rewrite to the bare target
plus `"@s.whatsapp.net"`, entirely independent of the full-identifier map
(which may be replaced by any other map without changing the result); the
full-identifier map decides the rewrite only when the bare-user lookup misses,
and when both lookups miss the store is unchanged. -/
theorem chat_pass_lookup_precedence (um jm jm2 : Dict) (db : DB) (c : Jid)
    (_hends : endsWithLid c = true) :
    (∀ u, dget um (bareLid c) = some u →
      chatStep um jm db c = applyChatRewrite db c (u ++ sWhatsAppNet) ∧
      chatStep um jm db c = chatStep um jm2 db c) ∧
    (dget um (bareLid c) = none →
      (∀ v, dget jm c = some v → chatStep um jm db c = applyChatRewrite db c v) ∧
      (dget jm c = none → chatStep um jm db c = db)) := by
  refine ⟨fun u hu => ⟨?_, ?_⟩, fun h0 => ⟨fun v hv => ?_, fun hv => ?_⟩⟩
  · simp [chatStep, hu]
  · simp [chatStep, hu]
  · simp [chatStep, h0, hv]
  · simp [chatStep, h0, hv]

/-- Witness for C2: both maps have an applicable entry and disagree; the
bare-user entry `111 ↦ 222` decides the rewrite, and replacing the
full-identifier map by the empty map does not change the outcome. -/
theorem chat_pass_lookup_precedence_witness :
    chatStep [(str "111", str "222")] [(str "111@lid", str "999@x")]
        { chats := [str "111@lid"], messages := [] } (str "111@lid") =
      applyChatRewrite { chats := [str "111@lid"], messages := [] } (str "111@lid")
        (str "222" ++ sWhatsAppNet) ∧
    chatStep [(str "111", str "222")] [(str "111@lid", str "999@x")]
        { chats := [str "111@lid"], messages := [] } (str "111@lid") =
      chatStep [(str "111", str "222")] []
        { chats := [str "111@lid"], messages := [] } (str "111@lid") :=
  (chat_pass_lookup_precedence [(str "111", str "222")] [(str "111@lid", str "999@x")]
    [] { chats := [str "111@lid"], messages := [] } (str "111@lid")
    (by decide)).1 (str "222") (by decide)

/-- Claim C3: sender-pass lookup precedence, asymmetric to the chat pass.  For
a sender value carrying the anonymized suffix, the full-identifier map is
consulted first: on a hit every row whose sender equals that value is
rewritten to the full mapped identifier (bulk update by equality), regardless
of the bare-user map; only on a miss is the bare-user map consulted with the
suffix-stripped sender, and on that hit every such row is rewritten to the
bare-user value, which carries no `'@'` and hence no domain suffix. -/
theorem sender_pass_lookup_precedence (lm : Dict) (jm um2 : Dict) (db : DB) (s : Jid)
    (_hends : endsWithLid s = true) :
    (∀ v, dget jm s = some v →
      senderStep1 jm (build_user_map lm) db s = updSender db s v ∧
      senderStep1 jm (build_user_map lm) db s = senderStep1 jm um2 db s ∧
      List.Forall₂ (fun m m2 => (m.sender = s → m2 = { m with sender := v }) ∧
        (m.sender ≠ s → m2 = m)) db.messages
        (senderStep1 jm (build_user_map lm) db s).messages) ∧
    (dget jm s = none →
      (∀ u, dget (build_user_map lm) (beforeAt s) = some u →
        senderStep1 jm (build_user_map lm) db s = updSender db s u ∧ '@' ∉ u ∧
        List.Forall₂ (fun m m2 => (m.sender = s → m2 = { m with sender := u }) ∧
          (m.sender ≠ s → m2 = m)) db.messages
          (senderStep1 jm (build_user_map lm) db s).messages) ∧
      (dget (build_user_map lm) (beforeAt s) = none →
        senderStep1 jm (build_user_map lm) db s = db)) := by
  refine ⟨fun v hv => ⟨?_, ?_, ?_⟩, fun h0 => ⟨fun u hu => ⟨?_, ?_, ?_⟩, fun hu => ?_⟩⟩
  · simp [senderStep1, hv]
  · simp [senderStep1, hv]
  · have h : senderStep1 jm (build_user_map lm) db s = updSender db s v := by
      simp [senderStep1, hv]
    rw [h, updSender_messages]
    exact forall2_subst _ _ _
  · simp [senderStep1, h0, hu]
  · exact um_value_no_at hu
  · have h : senderStep1 jm (build_user_map lm) db s = updSender db s u := by
      simp [senderStep1, h0, hu]
    rw [h, updSender_messages]
    exact forall2_subst _ _ _
  · simp [senderStep1, h0, hu]

/-- Witness for C3: the full-identifier entry decides even though a bare-user
entry for the same sender exists and disagrees, and the bare-user map can be
replaced by the empty map without changing the result. -/
theorem sender_pass_lookup_precedence_witness :
    senderStep1 [(str "5@lid", str "777@s.whatsapp.net")]
        (build_user_map [(str "5@lid", str "888@y")])
        { chats := [], messages := [⟨str "m1", str "c", str "5@lid"⟩] } (str "5@lid") =
      updSender { chats := [], messages := [⟨str "m1", str "c", str "5@lid"⟩] }
        (str "5@lid") (str "777@s.whatsapp.net") ∧
    senderStep1 [(str "5@lid", str "777@s.whatsapp.net")]
        (build_user_map [(str "5@lid", str "888@y")])
        { chats := [], messages := [⟨str "m1", str "c", str "5@lid"⟩] } (str "5@lid") =
      senderStep1 [(str "5@lid", str "777@s.whatsapp.net")] []
        { chats := [], messages := [⟨str "m1", str "c", str "5@lid"⟩] } (str "5@lid") := by
  have h := (sender_pass_lookup_precedence [(str "5@lid", str "888@y")]
    [(str "5@lid", str "777@s.whatsapp.net")] []
    { chats := [], messages := [⟨str "m1", str "c", str "5@lid"⟩] } (str "5@lid")
    (by decide)).1 (str "777@s.whatsapp.net") (by decide)
  exact ⟨h.1, h.2.1⟩

/-- Claim C6 (counterexample): the code's bare form is Python
`replace("@lid", "")`, which removes every occurrence of the suffix, so for an
identifier containing `"@lid"` in a non-trailing position the bare form
differs from the claim's trailing-strip. -/
theorem bare_form_counterexample :
    endsWithLid (str "1@lid2@lid") = true ∧
    bareLid (str "1@lid2@lid") = str "12" ∧
    bareLid (str "1@lid2@lid") ≠ specTrailingStrip (str "1@lid2@lid") := by
  decide

/-- Claim C6 (amended): the bare form removes every left-to-right occurrence
of `"@lid"`, not only the trailing one; for identifiers whose user part
contains no `'@'` — so the suffix occurs only in trailing position — it
coincides with removing the trailing suffix, leaving the user part
unchanged. -/
theorem bare_form_of_clean_user (u : Jid) (h : '@' ∉ u) :
    bareLid (u ++ atLid) = u ∧ specTrailingStrip (u ++ atLid) = u := by
  constructor
  · rw [bareLid, if_pos (endsWithLid_append_lid u), stripLidAll_user_append h]
  · rw [specTrailingStrip]
    have hlen : (u ++ atLid).length - 4 = u.length := by
      simp [atLid]
    rw [hlen, List.take_append_of_le_length (Nat.le_refl _), List.take_length]

/-- Witness for C6 (amended) at the numeric user part `12345`. -/
theorem bare_form_of_clean_user_witness :
    bareLid (str "12345" ++ atLid) = str "12345" ∧
    specTrailingStrip (str "12345" ++ atLid) = str "12345" :=
  bare_form_of_clean_user (str "12345") (by decide)

/-- Claim C10: chained sender rewrites within one run.  With the mapping
entries `a@x@lid ↦ b@y` and `b@lid ↦ c@z`, the original sender `a@lid` misses
the full-identifier map, is rewritten by the full-JID pass to the bare value
`b` through the first entry's bare-user fallback, and — because the bare pass
enumerates distinct senders only after the full-JID pass wrote its updates —
that produced value is then rewritten to `c` through the second entry: one
original sender value passes through two different mapping entries in one
run. -/
theorem chained_sender_rewrite :
    dget (build_jid_map [(str "a@x@lid", str "b@y"), (str "b@lid", str "c@z")])
        (str "a@lid") = none ∧
    dget (build_user_map [(str "a@x@lid", str "b@y"), (str "b@lid", str "c@z")])
        (beforeAt (str "a@lid")) = some (str "b") ∧
    dget (build_user_map [(str "a@x@lid", str "b@y"), (str "b@lid", str "c@z")])
        (str "b") = some (str "c") ∧
    (senderPass1 (build_jid_map [(str "a@x@lid", str "b@y"), (str "b@lid", str "c@z")])
        (build_user_map [(str "a@x@lid", str "b@y"), (str "b@lid", str "c@z")])
        { chats := [], messages := [⟨str "m1", str "ch", str "a@lid"⟩] }).messages.map
        Msg.sender = [str "b"] ∧
    (migrate_messages_db [(str "a@x@lid", str "b@y"), (str "b@lid", str "c@z")]
        { chats := [], messages := [⟨str "m1", str "ch", str "a@lid"⟩] }).messages.map
        Msg.sender = [str "c"] ∧
    str "b" ≠ str "c" := by
  decide

/-- Claim C8: atomicity on database error.  The run's operation list carries
its single commit as the last element, so a run aborted at any operation —
equivalently, executing any proper prefix of the list — leaves the persisted
contents of the target store exactly as they were; the complete run commits
exactly the composite in-memory effect `migrate_messages_db`. -/
theorem abort_leaves_disk_unchanged (lm : Dict) (db : DB) (k : Nat)
    (hk : k < (migrateOps lm db).length) :
    (runOps ⟨db, db⟩ ((migrateOps lm db).take k)).disk = db ∧
    runOps ⟨db, db⟩ (migrateOps lm db) =
      ⟨migrate_messages_db lm db, migrate_messages_db lm db⟩ := by
  constructor
  · have hsplit : migrateOps lm db =
        (((lidChats db).map (fun cj => Op.write
            (fun d => chatStep (build_user_map lm) (build_jid_map lm) d cj)))
          ++ [Op.write (senderPass1 (build_jid_map lm) (build_user_map lm)),
              Op.write (senderPass2 (build_user_map lm))]) ++ [Op.commit] := by
      rw [migrateOps]
      simp
    have hlen : (migrateOps lm db).length =
        (((lidChats db).map (fun cj => Op.write
            (fun d => chatStep (build_user_map lm) (build_jid_map lm) d cj)))
          ++ [Op.write (senderPass1 (build_jid_map lm) (build_user_map lm)),
              Op.write (senderPass2 (build_user_map lm))]).length + 1 := by
      rw [hsplit]
      simp
    rw [hsplit, List.take_append_of_le_length (by omega)]
    refine runOps_writes_disk _ _ ?_
    intro op hop
    have hop2 := List.mem_of_mem_take hop
    rcases List.mem_append.mp hop2 with h | h
    · rcases List.mem_map.mp h with ⟨cj, _, rfl⟩
      exact ⟨_, rfl⟩
    · rcases List.mem_cons.mp h with h2 | h2
      · exact ⟨_, h2⟩
      · rcases List.mem_cons.mp h2 with h3 | h3
        · exact ⟨_, h3⟩
        · simp at h3
  · have hmap := runOps_write_map (build_user_map lm) (build_jid_map lm)
      (lidChats db) ⟨db, db⟩
    rw [runOps] at hmap
    rw [migrateOps, runOps, List.foldl_append, hmap]
    rfl

/-- Witness for C8: aborting the empty-store run after its second operation
(before the commit) persists nothing. -/
theorem abort_leaves_disk_unchanged_witness :
    (runOps ⟨⟨[], []⟩, ⟨[], []⟩⟩ ((migrateOps [] ⟨[], []⟩).take 2)).disk = ⟨[], []⟩ ∧
    runOps ⟨⟨[], []⟩, ⟨[], []⟩⟩ (migrateOps [] ⟨[], []⟩) =
      ⟨migrate_messages_db [] ⟨[], []⟩, migrate_messages_db [] ⟨[], []⟩⟩ :=
  abort_leaves_disk_unchanged [] ⟨[], []⟩ 2 (by decide)

/-- Claim C9: frame condition for unmapped values.  An anonymized-suffix chat
identifier missing from both lookups makes its own loop iteration a no-op (at
any store state) and keeps its exact multiplicity in the chats table through
the whole run; a sender value with no applicable mapping is never rewritten:
every message row keeps its key and sender through the chat pass, and every
row holding such a sender after the chat pass (rows can be deleted there only
as merge duplicates, never edited) still holds it, unchanged byte for byte,
at the end of the run. -/
theorem unmapped_values_unchanged (lm : Dict) (db : DB) (c S : Jid)
    (hcm : c ∈ db.chats) (_hce : endsWithLid c = true)
    (hc1 : dget (build_user_map lm) (bareLid c) = none)
    (hc2 : dget (build_jid_map lm) c = none)
    (hS1 : endsWithLid S = true →
      dget (build_jid_map lm) S = none ∧ dget (build_user_map lm) (beforeAt S) = none)
    (hS2 : '@' ∉ S → dget (build_user_map lm) S = none) :
    (∀ d, chatStep (build_user_map lm) (build_jid_map lm) d c = d) ∧
    (migrate_messages_db lm db).chats.count c = db.chats.count c ∧
    (∀ m2 ∈ (chatPass (build_user_map lm) (build_jid_map lm) db).messages,
      ∃ m0 ∈ db.messages, m0.id = m2.id ∧ m0.sender = m2.sender) ∧
    List.Forall₂ (fun m m2 => m.sender = S → m2.sender = S)
      (chatPass (build_user_map lm) (build_jid_map lm) db).messages
      (migrate_messages_db lm db).messages := by
  have htn : chatTarget (build_user_map lm) (build_jid_map lm) c = none := by
    unfold chatTarget
    rw [hc1]
    exact hc2
  have hmig : migrate_messages_db lm db =
      senderPass2 (build_user_map lm) (senderPass1 (build_jid_map lm) (build_user_map lm)
        (chatPass (build_user_map lm) (build_jid_map lm) db)) := rfl
  refine ⟨fun d => chatStep_none htn d, ?_, ?_, ?_⟩
  · -- chat multiplicity preserved
    have hpos : 0 < db.chats.count c := List.count_pos_iff.mpr hcm
    have hcp : (chatPass (build_user_map lm) (build_jid_map lm) db).chats.count c =
        db.chats.count c := by
      refine foldl_pred (Q := fun d => d.chats.count c = db.chats.count c) _ ?_ db rfl
      intro a r _ hQ
      cases htr : chatTarget (build_user_map lm) (build_jid_map lm) r with
      | none => rw [chatStep_none htr]; exact hQ
      | some nj =>
        rw [chatStep_some htr]
        by_cases hrc : r = c
        · rw [hrc, htn] at htr; cases htr
        · rw [count_applyChatRewrite_pres (fun hh => hrc hh.symm) (hQ ▸ hpos)]
          exact hQ
    rw [hmig, senderPass2_chats, senderPass1_chats, hcp]
  · -- chat pass only deletes rows or rewrites their chat reference
    refine foldl_pred
      (Q := fun d => ∀ m2 ∈ d.messages, ∃ m0 ∈ db.messages, m0.id = m2.id ∧ m0.sender = m2.sender)
      _ ?_ db (fun m2 hm2 => ⟨m2, hm2, rfl, rfl⟩)
    intro a r _ hQ m2 hm2
    cases htr : chatTarget (build_user_map lm) (build_jid_map lm) r with
    | none => rw [chatStep_none htr] at hm2; exact hQ m2 hm2
    | some nj =>
      rw [chatStep_some htr] at hm2
      rcases mem_applyChatRewrite_messages hm2 with ⟨m, hm, ⟨_, heq⟩ | ⟨_, heq⟩⟩
      · subst heq; exact hQ _ hm
      · subst heq
        rcases hQ m hm with ⟨m0, hm0, hid, hsend⟩
        exact ⟨m0, hm0, hid, hsend⟩
  · -- neither sender pass rewrites the unmapped sender value
    have hbase : List.Forall₂ (fun m m2 : Msg => m.sender = S → m2.sender = S)
        (chatPass (build_user_map lm) (build_jid_map lm) db).messages
        (chatPass (build_user_map lm) (build_jid_map lm) db).messages :=
      List.forall₂_same.mpr (fun m _ h => h)
    have h1 : List.Forall₂ (fun m m2 : Msg => m.sender = S → m2.sender = S)
        (chatPass (build_user_map lm) (build_jid_map lm) db).messages
        (senderPass1 (build_jid_map lm) (build_user_map lm)
          (chatPass (build_user_map lm) (build_jid_map lm) db)).messages := by
      refine foldl_forall2_pres _ ?_ _ hbase
      intro d r hr
      by_cases hrS : r = S
      · have hre : endsWithLid r = true := (mem_lidSenders.mp hr).2
        rcases hS1 (hrS ▸ hre) with ⟨hj, hu⟩
        rw [hrS]
        exact Or.inl (by simp [senderStep1, hj, hu])
      · rcases senderStep1_cases (build_jid_map lm) (build_user_map lm) d r with hid | ⟨v, hupd, _⟩
        · exact Or.inl hid
        · refine Or.inr ⟨v, hupd, ?_⟩
          intro a b hab haS
          have hbS : b.sender = S := hab haS
          rw [if_neg (fun hh => hrS ((hbS ▸ hh : S = r)).symm)]
          exact hbS
    rw [hmig]
    refine foldl_forall2_pres _ ?_ _ h1
    intro d r _
    by_cases hat : '@' ∈ r
    · exact Or.inl (by simp [senderStep2, hat])
    · by_cases hrS : r = S
      · rw [hrS] at hat ⊢
        exact Or.inl (by simp [senderStep2, hat, hS2 hat])
      · rcases senderStep2_cases (build_user_map lm) d r with hid | ⟨v, hupd, _⟩
        · exact Or.inl hid
        · refine Or.inr ⟨v, hupd, ?_⟩
          intro a b hab haS
          have hbS : b.sender = S := hab haS
          rw [if_neg (fun hh => hrS ((hbS ▸ hh : S = r)).symm)]
          exact hbS

/-- Witness for C9: a store with one unmapped suffix-carrying chat and one
unmapped sender, under the mapping `111@lid ↦ 222@x`. -/
theorem unmapped_values_unchanged_witness :
    chatStep (build_user_map [(str "111@lid", str "222@x")])
      (build_jid_map [(str "111@lid", str "222@x")])
      (⟨[str "999@lid"], [⟨str "m", str "999@lid", str "abc"⟩]⟩ : DB) (str "999@lid") =
      (⟨[str "999@lid"], [⟨str "m", str "999@lid", str "abc"⟩]⟩ : DB) ∧
    (migrate_messages_db [(str "111@lid", str "222@x")]
      (⟨[str "999@lid"], [⟨str "m", str "999@lid", str "abc"⟩]⟩ : DB)).chats.count
      (str "999@lid") = 1 := by
  have h := unmapped_values_unchanged [(str "111@lid", str "222@x")]
    (⟨[str "999@lid"], [⟨str "m", str "999@lid", str "abc"⟩]⟩ : DB)
    (str "999@lid") (str "abc") (by decide) (by decide) (by decide) (by decide)
    (by decide) (by decide)
  exact ⟨h.1 _, h.2.1⟩

/-- Claim C5 (counterexample): with entries `a@x@lid ↦ b@y` and
`b@lid ↦ c@z`, the sender value `a@lid` has a (bare-user) mapping to `b`, yet
after one run the row that held it holds `c`, not `b`: the mapped value was
rewritten again by the bare pass in the same run. -/
theorem sender_rewrite_completeness_counterexample :
    senderMapping (build_jid_map [(str "a@x@lid", str "b@y"), (str "b@lid", str "c@z")])
      (build_user_map [(str "a@x@lid", str "b@y"), (str "b@lid", str "c@z")])
      (str "a@lid") = some (str "b") ∧
    (migrate_messages_db [(str "a@x@lid", str "b@y"), (str "b@lid", str "c@z")]
      (⟨[], [⟨str "m1", str "ch", str "a@lid"⟩]⟩ : DB)).messages.map Msg.sender =
      [str "c"] ∧
    str "c" ≠ str "b" := by
  decide

/-- Claim C5 (amended): sender rewrite completeness for non-chaining mappings.
Provided no full-map value carries the anonymized suffix (H1), no bare-map
value is itself a bare-map key (H2), and no `'@'`-free full-map value is a
bare-map key (H3) — so no written value is rewritten again — then for every
sender value S with a mapping to S2 under the code's lookup scheme: after the
run no message row holds S, and every row that held S after the chat pass
(rows can only be deleted there, as merge duplicates) holds exactly S2. -/
theorem sender_rewrite_completeness (lm : Dict) (db : DB) (S S2 : Jid)
    (H1 : ∀ k v, dget (build_jid_map lm) k = some v → endsWithLid v = false)
    (H2 : ∀ k v, dget (build_user_map lm) k = some v → dget (build_user_map lm) v = none)
    (H3 : ∀ k v, dget (build_jid_map lm) k = some v → '@' ∉ v →
      dget (build_user_map lm) v = none)
    (hmap : senderMapping (build_jid_map lm) (build_user_map lm) S = some S2) :
    (∀ m2 ∈ (migrate_messages_db lm db).messages, m2.sender ≠ S) ∧
    List.Forall₂ (fun m m2 => m.sender = S → m2.sender = S2)
      (chatPass (build_user_map lm) (build_jid_map lm) db).messages
      (migrate_messages_db lm db).messages := by
  set jm := build_jid_map lm with hjmdef
  set um := build_user_map lm with humdef
  set d1 := chatPass um jm db with hd1def
  have hmig : migrate_messages_db lm db = senderPass2 um (senderPass1 jm um d1) := rfl
  suffices hpost : List.Forall₂
      (fun m m2 => (m.sender = S → m2.sender = S2) ∧ m2.sender ≠ S)
      d1.messages (senderPass2 um (senderPass1 jm um d1)).messages by
    rw [hmig]
    constructor
    · intro m2 hm2
      rcases forall2_mem_right hpost hm2 with ⟨a, _, hR⟩
      exact hR.2
    · exact hpost.imp (fun a b h => h.1)
  by_cases hS : endsWithLid S = true
  · -- the sender carries the suffix: handled by the full-JID pass
    have hmap2 : (match dget jm S with
        | some v => some v
        | none => dget um (beforeAt S)) = some S2 := by
      rw [senderMapping, if_pos hS] at hmap
      exact hmap
    obtain ⟨hstepS, hS2lid, hstable⟩ :
        (∀ d, senderStep1 jm um d S = updSender d S S2) ∧ endsWithLid S2 = false ∧
          (dget um S2 = none ∨ '@' ∈ S2) := by
      cases hj : dget jm S with
      | some v =>
        rw [hj] at hmap2
        have hv : v = S2 := Option.some_inj.mp hmap2
        subst hv
        refine ⟨fun d => by simp [senderStep1, hj], H1 _ _ hj, ?_⟩
        by_cases hat : '@' ∈ v
        · exact Or.inr hat
        · exact Or.inl (H3 _ _ hj hat)
      | none =>
        rw [hj] at hmap2
        have hu : dget um (beforeAt S) = some S2 := hmap2
        exact ⟨fun d => by simp [senderStep1, hj, hu],
          not_endsWithLid_of_no_at (um_value_no_at hu), Or.inl (H2 _ _ hu)⟩
    have hS2neS : S2 ≠ S := by
      intro hc
      rw [hc, hS] at hS2lid
      exact Bool.noConfusion hS2lid
    have hSat : '@' ∈ S := mem_at_of_endsWithLid hS
    have hval1 : ∀ d r, senderStep1 jm um d r = d ∨
        ∃ v, senderStep1 jm um d r = updSender d r v ∧ v ≠ S := by
      intro d r
      rcases senderStep1_cases jm um d r with hid | ⟨v, hupd, hsrc⟩
      · exact Or.inl hid
      · refine Or.inr ⟨v, hupd, ?_⟩
        rcases hsrc with hjv | ⟨_, huv⟩
        · intro hc
          rw [hc] at hjv
          rw [H1 _ _ hjv] at hS
          exact Bool.noConfusion hS
        · intro hc
          have hnoat := um_value_no_at huv
          rw [hc] at hnoat
          exact hnoat hSat
    have hstep2post : ∀ d r, senderStep2 um d r = d ∨
        ∃ v, senderStep2 um d r = updSender d r v ∧ v ≠ S ∧ r ≠ S2 := by
      intro d r
      rcases senderStep2_cases um d r with hid | ⟨v, hupd, hat, huv⟩
      · exact Or.inl hid
      · refine Or.inr ⟨v, hupd, ?_, ?_⟩
        · intro hc
          have hnoat := um_value_no_at huv
          rw [hc] at hnoat
          exact hnoat hSat
        · intro hc
          rcases hstable with hst | hst
          · rw [hc, hst] at huv
            exact Option.noConfusion huv
          · rw [hc] at hat
            exact hat hst
    have hpost1 : List.Forall₂
        (fun m m2 => (m.sender = S → m2.sender = S2) ∧ m2.sender ≠ S)
        d1.messages (senderPass1 jm um d1).messages := by
      by_cases hmem : S ∈ lidSenders d1
      · rcases List.mem_iff_append.mp hmem with ⟨l1, l2, hsplit⟩
        have hnd : (lidSenders d1).Nodup := nodup_distinctVals _
        rw [hsplit] at hnd
        have hSl1 : S ∉ l1 := by
          rcases List.nodup_append.mp hnd with ⟨_, _, hdisj⟩
          exact fun hin => hdisj hin (List.mem_cons_self _ _)
        have hl2mem : ∀ r ∈ l2, r ∈ lidSenders d1 := by
          intro r hr
          rw [hsplit]
          exact List.mem_append_right _ (List.mem_cons_of_mem _ hr)
        rw [senderPass1, hsplit, List.foldl_append, List.foldl_cons]
        have hiff1 : List.Forall₂ (fun m m2 => m.sender = S ↔ m2.sender = S)
            d1.messages (l1.foldl (senderStep1 jm um) d1).messages := by
          refine phase_iff _ ?_ _ (List.forall₂_same.mpr (fun m _ => Iff.rfl))
          intro d r hr
          rcases hval1 d r with hid | ⟨v, hupd, hvne⟩
          · exact Or.inl hid
          · exact Or.inr ⟨v, hupd, fun hc => hSl1 (hc ▸ hr), hvne⟩
        have hpostB := subst_post hS2neS hiff1
        rw [← hstepS (l1.foldl (senderStep1 jm um) d1)] at hpostB
        refine phase_post _ ?_ _ hpostB
        intro d r hr
        rcases hval1 d r with hid | ⟨v, hupd, hvne⟩
        · exact Or.inl hid
        · refine Or.inr ⟨v, hupd, hvne, ?_⟩
          intro hc
          have hre : endsWithLid r = true := (mem_lidSenders.mp (hl2mem r hr)).2
          rw [hc, hS2lid] at hre
          exact Bool.noConfusion hre
      · have hnorow : ∀ m ∈ d1.messages, m.sender ≠ S := by
          intro m hm hc
          exact hmem (mem_lidSenders.mpr ⟨⟨m, hm, hc⟩, hS⟩)
        rw [senderPass1]
        refine phase_post _ ?_ _ (List.forall₂_same.mpr ?_)
        · intro d r hr
          rcases hval1 d r with hid | ⟨v, hupd, hvne⟩
          · exact Or.inl hid
          · refine Or.inr ⟨v, hupd, hvne, ?_⟩
            intro hc
            have hre : endsWithLid r = true := (mem_lidSenders.mp hr).2
            rw [hc, hS2lid] at hre
            exact Bool.noConfusion hre
        · intro m hm
          exact ⟨fun hc => absurd hc (hnorow m hm), hnorow m hm⟩
    rw [senderPass2]
    exact phase_post _ (fun d r _ => hstep2post d r) _ hpost1
  · -- the sender carries no suffix: handled by the bare pass
    have hSS : '@' ∉ S ∧ dget um S = some S2 := by
      rw [senderMapping, if_neg hS] at hmap
      by_cases hat : '@' ∈ S
      · rw [if_pos hat] at hmap
        exact Option.noConfusion hmap
      · rw [if_neg hat] at hmap
        exact ⟨hat, hmap⟩
    obtain ⟨hSnoat, hu⟩ := hSS
    have hS2neS : S2 ≠ S := by
      intro hc
      have h2 := H2 _ _ hu
      rw [hc] at h2
      rw [h2] at hu
      exact Option.noConfusion hu
    have hval2ne : ∀ v k, dget um k = some v → v ≠ S := by
      intro v k hk hc
      have h2 := H2 _ _ hk
      rw [hc] at h2
      rw [h2] at hu
      exact Option.noConfusion hu
    have hval1 : ∀ d r, r ∈ lidSenders d1 → senderStep1 jm um d r = d ∨
        ∃ v, senderStep1 jm um d r = updSender d r v ∧ r ≠ S ∧ v ≠ S := by
      intro d r hr
      rcases senderStep1_cases jm um d r with hid | ⟨v, hupd, hsrc⟩
      · exact Or.inl hid
      · refine Or.inr ⟨v, hupd, ?_, ?_⟩
        · intro hc
          have hre : endsWithLid r = true := (mem_lidSenders.mp hr).2
          rw [hc] at hre
          exact hSnoat (mem_at_of_endsWithLid hre)
        · rcases hsrc with hjv | ⟨_, huv⟩
          · intro hc
            rw [hc] at hjv
            have h3 := H3 _ _ hjv hSnoat
            rw [h3] at hu
            exact Option.noConfusion hu
          · exact hval2ne v _ huv
    have hiff2 : List.Forall₂ (fun m m2 => m.sender = S ↔ m2.sender = S)
        d1.messages (senderPass1 jm um d1).messages := by
      rw [senderPass1]
      exact phase_iff _ hval1 _ (List.forall₂_same.mpr (fun m _ => Iff.rfl))
    by_cases hmem : S ∈ allSenders (senderPass1 jm um d1)
    · rcases List.mem_iff_append.mp hmem with ⟨l1, l2, hsplit⟩
      have hnd : (allSenders (senderPass1 jm um d1)).Nodup := nodup_distinctVals _
      rw [hsplit] at hnd
      have hSl1 : S ∉ l1 := by
        rcases List.nodup_append.mp hnd with ⟨_, _, hdisj⟩
        exact fun hin => hdisj hin (List.mem_cons_self _ _)
      rw [senderPass2, hsplit, List.foldl_append, List.foldl_cons]
      have hiffA : List.Forall₂ (fun m m2 => m.sender = S ↔ m2.sender = S)
          d1.messages (l1.foldl (senderStep2 um) (senderPass1 jm um d1)).messages := by
        refine phase_iff _ ?_ _ hiff2
        intro d r hr
        rcases senderStep2_cases um d r with hid | ⟨v, hupd, hat, huv⟩
        · exact Or.inl hid
        · exact Or.inr ⟨v, hupd, fun hc => hSl1 (hc ▸ hr), hval2ne v r huv⟩
      have hstepS2 : senderStep2 um (l1.foldl (senderStep2 um) (senderPass1 jm um d1)) S =
          updSender (l1.foldl (senderStep2 um) (senderPass1 jm um d1)) S S2 := by
        simp [senderStep2, hSnoat, hu]
      rw [hstepS2]
      refine phase_post _ ?_ _ (subst_post hS2neS hiffA)
      intro d r hr
      rcases senderStep2_cases um d r with hid | ⟨v, hupd, hat, huv⟩
      · exact Or.inl hid
      · refine Or.inr ⟨v, hupd, hval2ne v r huv, ?_⟩
        intro hc
        have h2 := H2 _ _ hu
        rw [hc] at huv
        rw [h2] at huv
        exact Option.noConfusion huv
    · have hnorow : ∀ m ∈ (senderPass1 jm um d1).messages, m.sender ≠ S := by
        intro m hm hc
        exact hmem (mem_allSenders.mpr ⟨m, hm, hc⟩)
      have hbase : List.Forall₂
          (fun m m2 => (m.sender = S → m2.sender = S2) ∧ m2.sender ≠ S)
          d1.messages (senderPass1 jm um d1).messages := by
        refine forall2_imp_mem_right hiff2 ?_
        intro a b hb hab
        exact ⟨fun haS => absurd (hab.mp haS) (hnorow b hb), hnorow b hb⟩
      rw [senderPass2]
      refine phase_post _ ?_ _ hbase
      intro d r hr
      rcases senderStep2_cases um d r with hid | ⟨v, hupd, hat, huv⟩
      · exact Or.inl hid
      · refine Or.inr ⟨v, hupd, hval2ne v r huv, ?_⟩
        intro hc
        have h2 := H2 _ _ hu
        rw [hc] at huv
        rw [h2] at huv
        exact Option.noConfusion huv

/-- Witness for C5 (amended): the single-entry mapping `555@lid ↦ 777@x`
rewrites the bare sender `555` to exactly `777`. -/
theorem sender_rewrite_completeness_witness :
    List.Forall₂ (fun m m2 => m.sender = str "555" → m2.sender = str "777")
      (chatPass (build_user_map [(str "555@lid", str "777@x")])
        (build_jid_map [(str "555@lid", str "777@x")])
        (⟨[], [⟨str "m1", str "c1", str "555"⟩]⟩ : DB)).messages
      (migrate_messages_db [(str "555@lid", str "777@x")]
        (⟨[], [⟨str "m1", str "c1", str "555"⟩]⟩ : DB)).messages :=
  (sender_rewrite_completeness [(str "555@lid", str "777@x")]
    (⟨[], [⟨str "m1", str "c1", str "555"⟩]⟩ : DB) (str "555") (str "777")
    (by
      intro k v h
      rcases dget_singleton (h : dget [(str "555@lid", str "777@x")] k = some v) with ⟨_, hv⟩
      rw [hv]
      decide)
    (by
      intro k v h
      rcases dget_singleton (h : dget [(str "555", str "777")] k = some v) with ⟨_, hv⟩
      rw [hv]
      decide)
    (by
      intro k v h hno
      rcases dget_singleton (h : dget [(str "555@lid", str "777@x")] k = some v) with ⟨_, hv⟩
      rw [hv] at hno
      exact absurd (by decide : '@' ∈ str "777@x") hno)
    (by decide)).2

/-- Claim C4 (counterexample): with the entries `1@x@lid ↦ 9@lid` and
`9@lid ↦ 5@z`, the chat `1@x@lid` maps to the target `9@lid`, which already
exists as a chat — a merge — yet after the run no chat record with that
target identifier exists at all, because the target itself was rewritten by a
later iteration of the same pass. -/
theorem merge_postcondition_counterexample :
    chatTarget (build_user_map [(str "1@x@lid", str "9@lid"), (str "9@lid", str "5@z")])
      (build_jid_map [(str "1@x@lid", str "9@lid"), (str "9@lid", str "5@z")])
      (str "1@x@lid") = some (str "9@lid") ∧
    str "9@lid" ∈ (⟨[str "1@x@lid", str "9@lid"],
      [⟨str "m1", str "1@x@lid", str "s"⟩, ⟨str "m1", str "9@lid", str "s"⟩,
       ⟨str "m2", str "1@x@lid", str "s"⟩]⟩ : DB).chats ∧
    (migrate_messages_db [(str "1@x@lid", str "9@lid"), (str "9@lid", str "5@z")]
      (⟨[str "1@x@lid", str "9@lid"],
        [⟨str "m1", str "1@x@lid", str "s"⟩, ⟨str "m1", str "9@lid", str "s"⟩,
         ⟨str "m2", str "1@x@lid", str "s"⟩]⟩ : DB)).chats.count (str "9@lid") = 0 := by
  decide

/-- Claim C4 (amended): merge postcondition.  Assume chat identifiers are
unique (primary key), no full-map value carries the anonymized suffix (so no
rewrite target is itself rewritten or deleted by the chat pass), chat `c`
carries the suffix and maps to target `t`, and a chat `t` already exists.
Then after the run: exactly one chat record with identifier `t` exists, none
with `c` exists, no message row references `c`, every message of `c` is
represented under `t` (its collision partner when a row with the same key
already sat under `t` at the merge — the copy under `c` being deleted — or
its own reassigned copy otherwise), and every original message of `t` is
still there.  Several anonymized chats may map to the same target: each later
merge deduplicates against the rows already accumulated under `t` and only
ever adds rows there, so the postcondition needs no uniqueness of the
target. -/
theorem merge_postcondition (lm : Dict) (db : DB) (c t : Jid)
    (hnd : db.chats.Nodup)
    (H1 : ∀ k v, dget (build_jid_map lm) k = some v → endsWithLid v = false)
    (hcm : c ∈ db.chats) (hce : endsWithLid c = true)
    (htar : chatTarget (build_user_map lm) (build_jid_map lm) c = some t)
    (htm : t ∈ db.chats) :
    (migrate_messages_db lm db).chats.count t = 1 ∧
    c ∉ (migrate_messages_db lm db).chats ∧
    (∀ m2 ∈ (migrate_messages_db lm db).messages, m2.chat_jid ≠ c) ∧
    (∀ m0 ∈ db.messages, m0.chat_jid = c →
      ∃ m2 ∈ (migrate_messages_db lm db).messages, m2.id = m0.id ∧ m2.chat_jid = t) ∧
    (∀ mt ∈ db.messages, mt.chat_jid = t →
      ∃ m2 ∈ (migrate_messages_db lm db).messages, m2.id = mt.id ∧ m2.chat_jid = t) := by
  set jm := build_jid_map lm with hjmdef
  set um := build_user_map lm with humdef
  have htlid : endsWithLid t = false := chatTarget_not_lid H1 htar
  have htc : t ≠ c := by
    intro hc
    rw [hc, hce] at htlid
    exact Bool.noConfusion htlid
  -- split the chat snapshot around c
  have hcsnap : c ∈ lidChats db := List.mem_filter.mpr ⟨hcm, hce⟩
  rcases List.mem_iff_append.mp hcsnap with ⟨l1, l2, hsplit⟩
  have hndsnap : (lidChats db).Nodup := hnd.filter _
  rw [hsplit] at hndsnap
  have hcl1 : c ∉ l1 := by
    rcases List.nodup_append.mp hndsnap with ⟨_, _, hdisj⟩
    exact fun hin => hdisj hin (List.mem_cons_self _ _)
  have hl1mem : ∀ r ∈ l1, r ∈ lidChats db := by
    intro r hr
    rw [hsplit]
    exact List.mem_append_left _ hr
  have hl2mem : ∀ r ∈ l2, r ∈ lidChats db := by
    intro r hr
    rw [hsplit]
    exact List.mem_append_right _ (List.mem_cons_of_mem _ hr)
  have hcl2 : c ∉ l2 := by
    rcases List.nodup_append.mp hndsnap with ⟨_, h2, _⟩
    exact (List.nodup_cons.mp h2).1
  -- shared step facts for iterations other than c's
  have hstepfacts : ∀ r, r ∈ lidChats db → ∀ nj,
      chatTarget um jm r = some nj →
        endsWithLid nj = false ∧ nj ≠ c ∧ t ≠ r := by
    intro r hr nj hnj
    rcases List.mem_filter.mp hr with ⟨_, hrend⟩
    have hnjlid : endsWithLid nj = false := chatTarget_not_lid H1 hnj
    have hnjc : nj ≠ c := by
      intro hc2
      rw [hc2, hce] at hnjlid
      exact Bool.noConfusion hnjlid
    have htr : t ≠ r := by
      intro hc2
      rw [hc2, hrend] at htlid
      exact Bool.noConfusion htlid
    exact ⟨hnjlid, hnjc, htr⟩
  -- phase A: iterations before c keep t unique, keep c's rows intact, and can
  -- only add rows under t, never remove or edit them
  have hA : ∀ d : DB,
      (d.chats.count t = 1 ∧
       d.messages.filter (fun m => decide (m.chat_jid = c)) =
         db.messages.filter (fun m => decide (m.chat_jid = c)) ∧
       (∀ mt ∈ db.messages, mt.chat_jid = t → mt ∈ d.messages)) →
      (l1.foldl (chatStep um jm) d).chats.count t = 1 ∧
      (l1.foldl (chatStep um jm) d).messages.filter (fun m => decide (m.chat_jid = c)) =
        db.messages.filter (fun m => decide (m.chat_jid = c)) ∧
      (∀ mt ∈ db.messages, mt.chat_jid = t →
        mt ∈ (l1.foldl (chatStep um jm) d).messages) := by
    intro d hQ
    refine foldl_pred
      (Q := fun d2 => d2.chats.count t = 1 ∧
        d2.messages.filter (fun m => decide (m.chat_jid = c)) =
          db.messages.filter (fun m => decide (m.chat_jid = c)) ∧
        (∀ mt ∈ db.messages, mt.chat_jid = t → mt ∈ d2.messages))
      _ ?_ d hQ
    intro a r hr ⟨hq1, hq2, hq3⟩
    cases htr2 : chatTarget um jm r with
    | none =>
      rw [chatStep_none htr2]
      exact ⟨hq1, hq2, hq3⟩
    | some nj =>
      rw [chatStep_some htr2]
      have hrc : r ≠ c := fun hc2 => hcl1 (hc2 ▸ hr)
      rcases hstepfacts r (hl1mem r hr) nj htr2 with ⟨_, hnjc, htr3⟩
      refine ⟨?_, ?_, ?_⟩
      · rw [count_applyChatRewrite_pres htr3 (by omega)]
        exact hq1
      · rw [filter_chat_applyChatRewrite (fun hc2 => hrc hc2.symm) (fun hc2 => hnjc hc2.symm)]
        exact hq2
      · intro mt hmt hchat
        exact row_survives_applyChatRewrite (hq3 mt hmt hchat)
          (fun hh => htr3 (hchat ▸ hh))
  have hA2 := hA db ⟨count_eq_one_of_nodup_mem hnd htm, rfl, fun mt hmt _ => hmt⟩
  -- phase B: c's own iteration is a merge into t
  have hBex : chatExists (l1.foldl (chatStep um jm) db) t = true :=
    chatExists_iff.mpr (List.count_pos_iff.mp (by omega))
  have hBstep : chatStep um jm (l1.foldl (chatStep um jm) db) c =
      mergeInto (l1.foldl (chatStep um jm) db) c t := by
    rw [chatStep_some htar, applyChatRewrite, if_pos hBex]
  -- facts after the merge
  have hB1 : (mergeInto (l1.foldl (chatStep um jm) db) c t).chats.count t = 1 := by
    rw [count_mergeInto_ne htc]
    exact hA2.1
  have hB2 : (mergeInto (l1.foldl (chatStep um jm) db) c t).chats.count c = 0 :=
    count_mergeInto_self
  have hB3 : ∀ m2 ∈ (mergeInto (l1.foldl (chatStep um jm) db) c t).messages,
      m2.chat_jid ≠ c := mergeInto_no_old_rows htc
  have hB4 : ∀ m0 ∈ db.messages, m0.chat_jid = c →
      ∃ m2 ∈ (mergeInto (l1.foldl (chatStep um jm) db) c t).messages,
        m2.id = m0.id ∧ m2.chat_jid = t := by
    intro m0 hm0 hchat
    have hm0f : m0 ∈ db.messages.filter (fun m => decide (m.chat_jid = c)) :=
      List.mem_filter.mpr ⟨hm0, by simp [hchat]⟩
    rw [← hA2.2.1] at hm0f
    rcases List.mem_filter.mp hm0f with ⟨hm0A, hm0Ac⟩
    rw [decide_eq_true_eq] at hm0Ac
    exact mergeInto_target_rows htc m0 hm0A hm0Ac
  have hB5 : ∀ mt ∈ db.messages, mt.chat_jid = t →
      mt ∈ (mergeInto (l1.foldl (chatStep um jm) db) c t).messages := by
    intro mt hmt hchat
    exact row_survives_mergeInto (hA2.2.2 mt hmt hchat) (fun hh => htc (hchat ▸ hh))
  -- phase C: iterations after c preserve all facts, again only adding under t
  have hC : ∀ d : DB,
      (d.chats.count t = 1 ∧ d.chats.count c = 0 ∧
       (∀ m2 ∈ d.messages, m2.chat_jid ≠ c) ∧
       (∀ m2 ∈ (mergeInto (l1.foldl (chatStep um jm) db) c t).messages,
         m2.chat_jid = t → m2 ∈ d.messages)) →
      (l2.foldl (chatStep um jm) d).chats.count t = 1 ∧
      (l2.foldl (chatStep um jm) d).chats.count c = 0 ∧
      (∀ m2 ∈ (l2.foldl (chatStep um jm) d).messages, m2.chat_jid ≠ c) ∧
      (∀ m2 ∈ (mergeInto (l1.foldl (chatStep um jm) db) c t).messages,
        m2.chat_jid = t → m2 ∈ (l2.foldl (chatStep um jm) d).messages) := by
    intro d hQ
    refine foldl_pred
      (Q := fun d2 => d2.chats.count t = 1 ∧ d2.chats.count c = 0 ∧
        (∀ m2 ∈ d2.messages, m2.chat_jid ≠ c) ∧
        (∀ m2 ∈ (mergeInto (l1.foldl (chatStep um jm) db) c t).messages,
          m2.chat_jid = t → m2 ∈ d2.messages))
      _ ?_ d hQ
    intro a r hr ⟨hq1, hq2, hq3, hq4⟩
    cases htr2 : chatTarget um jm r with
    | none =>
      rw [chatStep_none htr2]
      exact ⟨hq1, hq2, hq3, hq4⟩
    | some nj =>
      rw [chatStep_some htr2]
      rcases hstepfacts r (hl2mem r hr) nj htr2 with ⟨_, hnjc, htr3⟩
      refine ⟨?_, ?_, ?_, ?_⟩
      · rw [count_applyChatRewrite_pres htr3 (by omega)]
        exact hq1
      · exact count_applyChatRewrite_zero (fun hc2 => hnjc hc2.symm) hq2
      · intro m2 hm2
        rcases mem_applyChatRewrite_messages hm2 with ⟨m, hm, ⟨_, heq⟩ | ⟨_, heq⟩⟩
        · subst heq
          exact hq3 _ hm
        · subst heq
          exact fun hc2 => hnjc hc2
      · intro m2 hm2 hchat
        exact row_survives_applyChatRewrite (hq4 m2 hm2 hchat)
          (fun hh => htr3 (hchat ▸ hh))
  have hcp : chatPass um jm db =
      l2.foldl (chatStep um jm) (mergeInto (l1.foldl (chatStep um jm) db) c t) := by
    rw [chatPass, hsplit, List.foldl_append, List.foldl_cons, hBstep]
  have hCres := hC (mergeInto (l1.foldl (chatStep um jm) db) c t)
    ⟨hB1, hB2, hB3, fun m2 hm2 _ => hm2⟩
  rw [← hcp] at hCres
  -- sender passes preserve keys and chat references
  have hkeys := sender_passes_keep_keys jm um (chatPass um jm db)
  have hmig : migrate_messages_db lm db =
      senderPass2 um (senderPass1 jm um (chatPass um jm db)) := rfl
  have hchats : (migrate_messages_db lm db).chats = (chatPass um jm db).chats := by
    rw [hmig, senderPass2_chats, senderPass1_chats]
  refine ⟨?_, ?_, ?_, ?_, ?_⟩
  · rw [hchats]
    exact hCres.1
  · rw [hchats, ← List.count_eq_zero]
    exact hCres.2.1
  · intro m2 hm2
    rw [hmig] at hm2
    rcases forall2_mem_right hkeys hm2 with ⟨m, hm, hid, hchat⟩
    rw [hchat]
    exact hCres.2.2.1 m hm
  · intro m0 hm0 hchat
    rcases hB4 m0 hm0 hchat with ⟨m2, hm2, hid, hchat2⟩
    have hm2cp : m2 ∈ (chatPass um jm db).messages := hCres.2.2.2 m2 hm2 hchat2
    rcases forall2_mem_left hkeys hm2cp with ⟨m3, hm3, hid3, hchat3⟩
    rw [hmig]
    exact ⟨m3, hm3, hid3.trans hid, hchat3.trans hchat2⟩
  · intro mt hmt hchat
    have hm2cp : mt ∈ (chatPass um jm db).messages :=
      hCres.2.2.2 mt (hB5 mt hmt hchat) hchat
    rcases forall2_mem_left hkeys hm2cp with ⟨m3, hm3, hid3, hchat3⟩
    rw [hmig]
    exact ⟨m3, hm3, hid3, hchat3.trans hchat⟩

/-- Witness for C4 (amended): two anonymized chats (`1@lid` and `2@lid`) both
merge into the same existing target `9@s.whatsapp.net` — the multi-source
case the postcondition covers. -/
theorem merge_postcondition_witness :
    (migrate_messages_db [(str "1@lid", str "9@a"), (str "2@lid", str "9@b")]
      (⟨[str "1@lid", str "2@lid", str "9@s.whatsapp.net"],
        [⟨str "m1", str "9@s.whatsapp.net", str "x"⟩, ⟨str "m1", str "1@lid", str "x"⟩,
         ⟨str "m2", str "1@lid", str "y"⟩, ⟨str "m2", str "2@lid", str "z"⟩]⟩ : DB)).chats.count
      (str "9" ++ sWhatsAppNet) = 1 ∧
    str "1@lid" ∉ (migrate_messages_db [(str "1@lid", str "9@a"), (str "2@lid", str "9@b")]
      (⟨[str "1@lid", str "2@lid", str "9@s.whatsapp.net"],
        [⟨str "m1", str "9@s.whatsapp.net", str "x"⟩, ⟨str "m1", str "1@lid", str "x"⟩,
         ⟨str "m2", str "1@lid", str "y"⟩, ⟨str "m2", str "2@lid", str "z"⟩]⟩ : DB)).chats := by
  have h := merge_postcondition [(str "1@lid", str "9@a"), (str "2@lid", str "9@b")]
    (⟨[str "1@lid", str "2@lid", str "9@s.whatsapp.net"],
      [⟨str "m1", str "9@s.whatsapp.net", str "x"⟩, ⟨str "m1", str "1@lid", str "x"⟩,
       ⟨str "m2", str "1@lid", str "y"⟩, ⟨str "m2", str "2@lid", str "z"⟩]⟩ : DB)
    (str "1@lid") (str "9" ++ sWhatsAppNet)
    (by decide)
    (by
      intro k v h
      rcases dget_pair
        (h : dget [(str "1@lid", str "9@a"), (str "2@lid", str "9@b")] k = some v)
        with ⟨_, hv⟩ | ⟨_, hv⟩ <;> rw [hv] <;> decide)
    (by decide) (by decide) (by decide) (by decide)
  exact ⟨h.1, h.2.1⟩

/-- Claim C1 (counterexample): with the chaining entries `555@lid ↦ 777@x`
and `777@lid ↦ 999@x`, one run rewrites the bare sender `555` to `777`; the
bare-pass snapshot was taken before that write, so `777` — which has a
mapping — survives the first run, and a second run changes the row again. -/
theorem migration_idempotent_counterexample :
    (migrate_messages_db [(str "555@lid", str "777@x"), (str "777@lid", str "999@x")]
      (⟨[], [⟨str "m1", str "c1", str "555"⟩]⟩ : DB)).messages.map Msg.sender =
      [str "777"] ∧
    (migrate_messages_db [(str "555@lid", str "777@x"), (str "777@lid", str "999@x")]
      (migrate_messages_db [(str "555@lid", str "777@x"), (str "777@lid", str "999@x")]
        (⟨[], [⟨str "m1", str "c1", str "555"⟩]⟩ : DB))).messages.map Msg.sender =
      [str "999"] ∧
    migrate_messages_db [(str "555@lid", str "777@x"), (str "777@lid", str "999@x")]
      (migrate_messages_db [(str "555@lid", str "777@x"), (str "777@lid", str "999@x")]
        (⟨[], [⟨str "m1", str "c1", str "555"⟩]⟩ : DB)) ≠
      migrate_messages_db [(str "555@lid", str "777@x"), (str "777@lid", str "999@x")]
        (⟨[], [⟨str "m1", str "c1", str "555"⟩]⟩ : DB) := by
  decide

/-- Claim C1 (amended): idempotence for non-chaining mappings.  Assume chat
identifiers are unique (primary key) and the mapping is non-chaining: no
full-map value carries the anonymized suffix (H1) and no bare-map value is
itself a bare-map key (H2), so that no value the run writes still carries the
suffix or survives the bare pass with an applicable mapping.  Then a second
run on the produced store changes nothing; in particular, after one run every
chat identifier still carrying the anonymized suffix has no entry in either
lookup, and so does every message sender still carrying it (an orphaned
message chat reference — one naming no chat record — is never visited by the
chat pass and may keep a mapped suffix identifier, which the second run again
does not touch). -/
theorem migration_idempotent (lm : Dict) (db : DB)
    (hnd : db.chats.Nodup)
    (H1 : ∀ k v, dget (build_jid_map lm) k = some v → endsWithLid v = false)
    (H2 : ∀ k v, dget (build_user_map lm) k = some v → dget (build_user_map lm) v = none) :
    migrate_messages_db lm (migrate_messages_db lm db) = migrate_messages_db lm db ∧
    (∀ c ∈ (migrate_messages_db lm db).chats, endsWithLid c = true →
      dget (build_user_map lm) (bareLid c) = none ∧ dget (build_jid_map lm) c = none) ∧
    (∀ m ∈ (migrate_messages_db lm db).messages, endsWithLid m.sender = true →
      dget (build_jid_map lm) m.sender = none ∧
      dget (build_user_map lm) (beforeAt m.sender) = none) := by
  set jm := build_jid_map lm with hjmdef
  set um := build_user_map lm with humdef
  set d1 := chatPass um jm db with hd1def
  set d2 := senderPass1 jm um d1 with hd2def
  have hmig : migrate_messages_db lm db = senderPass2 um d2 := rfl
  -- after the chat pass, every suffix-carrying chat identifier misses both lookups
  have hchatsclean : ∀ x ∈ d1.chats, endsWithLid x = true →
      dget um (bareLid x) = none ∧ dget jm x = none := by
    have hinv := foldl_inv (f := chatStep um jm)
      (P := fun d rest => rest.Nodup ∧ ∀ x ∈ d.chats, endsWithLid x = true →
        x ∈ rest ∨ (dget um (bareLid x) = none ∧ dget jm x = none))
      ?_ (lidChats db) db ⟨hnd.filter _, ?_⟩
    · intro x hx hex
      rcases hinv.2 x hx hex with hin | hclean
      · simp at hin
      · exact hclean
    · intro a r rest ⟨hndc, hP⟩
      refine ⟨(List.nodup_cons.mp hndc).2, ?_⟩
      cases htr : chatTarget um jm r with
      | none =>
        rw [chatStep_none htr]
        intro x hx hex
        rcases hP x hx hex with hin | hclean
        · rcases List.mem_cons.mp hin with heq | hin2
          · exact Or.inr (heq ▸ chatTarget_none_elim htr)
          · exact Or.inl hin2
        · exact Or.inr hclean
      | some nj =>
        rw [chatStep_some htr]
        have hnjlid : endsWithLid nj = false := chatTarget_not_lid H1 htr
        intro x hx hex
        rcases mem_applyChatRewrite_chats hx with heq | ⟨hx2, hxr⟩
        · rw [heq, hnjlid] at hex
          exact Bool.noConfusion hex
        · rcases hP x hx2 hex with hin | hclean
          · rcases List.mem_cons.mp hin with heq | hin2
            · exact absurd heq hxr
            · exact Or.inl hin2
          · exact Or.inr hclean
    · intro x hx hex
      exact Or.inl (List.mem_filter.mpr ⟨hx, hex⟩)
  -- after the full-JID pass, every suffix-carrying sender misses both lookups
  have hclean1 : ∀ m ∈ d2.messages, endsWithLid m.sender = true →
      dget jm m.sender = none ∧ dget um (beforeAt m.sender) = none := by
    have hinv := foldl_inv (f := senderStep1 jm um)
      (P := fun d rest => rest.Nodup ∧ ∀ m ∈ d.messages, endsWithLid m.sender = true →
        m.sender ∈ rest ∨ (dget jm m.sender = none ∧ dget um (beforeAt m.sender) = none))
      ?_ (lidSenders d1) d1 ⟨nodup_distinctVals _, ?_⟩
    · intro m hm hex
      rcases hinv.2 m hm hex with hin | hclean
      · simp at hin
      · exact hclean
    · intro a r rest ⟨hndc, hP⟩
      refine ⟨(List.nodup_cons.mp hndc).2, ?_⟩
      rcases senderStep1_cases_strong jm um a r with ⟨hj, hu, hid⟩ | ⟨v, hupd, hsrc⟩
      · rw [hid]
        intro m hm hex
        rcases hP m hm hex with hin | hclean
        · rcases List.mem_cons.mp hin with heq | hin2
          · exact Or.inr (heq ▸ ⟨hj, hu⟩)
          · exact Or.inl hin2
        · exact Or.inr hclean
      · rw [hupd]
        have hvlid : endsWithLid v = false := by
          rcases hsrc with hjv | ⟨_, huv⟩
          · exact H1 _ _ hjv
          · exact not_endsWithLid_of_no_at (um_value_no_at huv)
        intro m2 hm2 hex
        rcases mem_updSender hm2 with ⟨m, hm, ⟨hne, heq⟩ | ⟨hseq, heq⟩⟩
        · rw [heq] at hex ⊢
          rcases hP m hm hex with hin | hclean
          · rcases List.mem_cons.mp hin with heq2 | hin2
            · exact absurd heq2 hne
            · exact Or.inl hin2
          · exact Or.inr hclean
        · subst heq
          rw [show ({ m with sender := v } : Msg).sender = v from rfl, hvlid] at hex
          exact Bool.noConfusion hex
    · intro m hm hex
      exact Or.inl (mem_lidSenders.mpr ⟨⟨m, hm, rfl⟩, hex⟩)
  -- the bare pass preserves that invariant
  have hclean1f : ∀ m ∈ (senderPass2 um d2).messages, endsWithLid m.sender = true →
      dget jm m.sender = none ∧ dget um (beforeAt m.sender) = none := by
    refine foldl_pred
      (Q := fun d => ∀ m ∈ d.messages, endsWithLid m.sender = true →
        dget jm m.sender = none ∧ dget um (beforeAt m.sender) = none)
      _ ?_ d2 hclean1
    intro a r _ hQ
    rcases senderStep2_cases um a r with hid | ⟨v, hupd, hat, huv⟩
    · rw [hid]; exact hQ
    · rw [hupd]
      intro m2 hm2 hex
      rcases mem_updSender hm2 with ⟨m, hm, ⟨_, heq⟩ | ⟨_, heq⟩⟩
      · rw [heq] at hex ⊢
        exact hQ m hm hex
      · subst heq
        rw [show ({ m with sender := v } : Msg).sender = v from rfl,
          not_endsWithLid_of_no_at (um_value_no_at huv)] at hex
        exact Bool.noConfusion hex
  -- after the bare pass, every at-free sender misses the bare lookup
  have hclean2 : ∀ m ∈ (senderPass2 um d2).messages, '@' ∉ m.sender →
      dget um m.sender = none := by
    have hinv := foldl_inv (f := senderStep2 um)
      (P := fun d rest => rest.Nodup ∧ ∀ m ∈ d.messages, '@' ∉ m.sender →
        m.sender ∈ rest ∨ dget um m.sender = none)
      ?_ (allSenders d2) d2 ⟨nodup_distinctVals _, ?_⟩
    · intro m hm hat
      rcases hinv.2 m hm hat with hin | hclean
      · simp at hin
      · exact hclean
    · intro a r rest ⟨hndc, hP⟩
      refine ⟨(List.nodup_cons.mp hndc).2, ?_⟩
      rcases senderStep2_cases_strong um a r with ⟨hat, hid⟩ | ⟨hat, hmiss, hid⟩ |
        ⟨v, hupd, hat, huv⟩
      · rw [hid]
        intro m hm hnat
        rcases hP m hm hnat with hin | hclean
        · rcases List.mem_cons.mp hin with heq | hin2
          · exact absurd (heq ▸ hat) hnat
          · exact Or.inl hin2
        · exact Or.inr hclean
      · rw [hid]
        intro m hm hnat
        rcases hP m hm hnat with hin | hclean
        · rcases List.mem_cons.mp hin with heq | hin2
          · exact Or.inr (heq ▸ hmiss)
          · exact Or.inl hin2
        · exact Or.inr hclean
      · rw [hupd]
        intro m2 hm2 hnat
        rcases mem_updSender hm2 with ⟨m, hm, ⟨hne, heq⟩ | ⟨hseq, heq⟩⟩
        · rw [heq] at hnat ⊢
          rcases hP m hm hnat with hin | hclean
          · rcases List.mem_cons.mp hin with heq2 | hin2
            · exact absurd heq2 hne
            · exact Or.inl hin2
          · exact Or.inr hclean
        · subst heq
          exact Or.inr (H2 _ _ huv)
    · intro m hm _
      exact Or.inl (mem_allSenders.mpr ⟨m, hm, rfl⟩)
  -- transport the chat invariant to the final store
  have hfchats : (senderPass2 um d2).chats = d1.chats := by
    rw [senderPass2_chats, hd2def, senderPass1_chats]
  have hchatscleanf : ∀ x ∈ (senderPass2 um d2).chats, endsWithLid x = true →
      dget um (bareLid x) = none ∧ dget jm x = none := by
    rw [hfchats]
    exact hchatsclean
  -- the second run is the identity on the final store
  have hrun2 : migrate_messages_db lm (senderPass2 um d2) = senderPass2 um d2 := by
    have hcp2 : chatPass um jm (senderPass2 um d2) = senderPass2 um d2 := by
      rw [chatPass]
      refine foldl_fixed ?_
      intro r hr
      rcases List.mem_filter.mp hr with ⟨hrm, hre⟩
      rcases hchatscleanf r hrm hre with ⟨h1, h2⟩
      exact chatStep_none (chatTarget_none_intro h1 h2) _
    have hsp1 : senderPass1 jm um (senderPass2 um d2) = senderPass2 um d2 := by
      rw [senderPass1]
      refine foldl_fixed ?_
      intro r hr
      rcases mem_lidSenders.mp hr with ⟨⟨m, hm, hms⟩, hre⟩
      rcases hclean1f m hm (hms ▸ hre) with ⟨h1, h2⟩
      rw [← hms]
      simp [senderStep1, h1, h2]
    have hsp2 : senderPass2 um (senderPass2 um d2) = senderPass2 um d2 := by
      rw [show senderPass2 um (senderPass2 um d2) =
        (allSenders (senderPass2 um d2)).foldl (senderStep2 um) (senderPass2 um d2) from rfl]
      refine foldl_fixed ?_
      intro r hr
      rcases mem_allSenders.mp hr with ⟨m, hm, hms⟩
      by_cases hat : '@' ∈ r
      · simp [senderStep2, hat]
      · have hmiss : dget um r = none := by
          rw [← hms]
          exact hclean2 m hm (hms ▸ hat)
        simp [senderStep2, hat, hmiss]
    show senderPass2 um (senderPass1 jm um (chatPass um jm (senderPass2 um d2))) = _
    rw [hcp2, hsp1, hsp2]
  exact ⟨by rw [hmig]; exact hrun2, by rw [hmig]; exact hchatscleanf,
    by rw [hmig]; exact hclean1f⟩

/-- Witness for C1 (amended): a one-entry, non-chaining mapping on a one-chat
store is idempotent. -/
theorem migration_idempotent_witness :
    migrate_messages_db [(str "111@lid", str "222@x")]
      (migrate_messages_db [(str "111@lid", str "222@x")]
        (⟨[str "111@lid"], [⟨str "m1", str "111@lid", str "111"⟩]⟩ : DB)) =
      migrate_messages_db [(str "111@lid", str "222@x")]
        (⟨[str "111@lid"], [⟨str "m1", str "111@lid", str "111"⟩]⟩ : DB) :=
  (migration_idempotent [(str "111@lid", str "222@x")]
    (⟨[str "111@lid"], [⟨str "m1", str "111@lid", str "111"⟩]⟩ : DB)
    (by decide)
    (by
      intro k v h
      rcases dget_singleton (h : dget [(str "111@lid", str "222@x")] k = some v) with ⟨_, hv⟩
      rw [hv]
      decide)
    (by
      intro k v h
      rcases dget_singleton (h : dget [(str "111", str "222")] k = some v) with ⟨_, hv⟩
      rw [hv]
      decide)).1

end LidMigration
